import Mathlib

/-!
Verification development for the DeepLink crawler core.

The embedding covers the two core modules:
 * the oracle-access layer (service module: guessContentType, fetchPageLinks),
   modelled as a pure function parametrised by the behaviour of the external
   oracle (one outcome per (key index, attempt) pair) and by the synthetic
   size / response-time draws;
 * the traversal engine (App.tsx: startRecursiveCrawl, processQueue,
   finishCrawl, stopCrawl, updateNodeState), modelled as a step function on an
   explicit engine state, with ghost logs recording dequeue / expansion order.

Timed waits (cooldowns, backoffs) are recorded as events in a trace, one time
unit standing for one second (the source waits are 10000 ms and 2000*(n+1) ms).
-/

namespace DeepLink

/-- Content categories, mirroring the contentType union of LinkNode in
types.ts. -/
inductive ContentType where
  | textHtml
  | applicationJson
  | imageJpeg
  | imagePng
  | textCss
  | applicationJavascript
  | applicationPdf
  | other
deriving DecidableEq, Repr

/-- Node classification, mirroring the type union of LinkNode in types.ts. -/
inductive NodeType where
  | internal
  | external
  | resource
deriving DecidableEq, Repr

/-- One discovered URL, mirroring the LinkNode interface of types.ts.  The
status field is kept as a string because the source stores string literals
and inspects them with startsWith.  The discoverySource is kept as a string
because the service module casts the oracle value without validation. -/
structure LinkNode where
  id : String
  url : String
  title : Option String := none
  depth : Nat
  parentId : Option String := none
  status : String
  type : NodeType
  contentType : ContentType
  size : Option Nat := none
  responseTime : Option Nat := none
  discoverySource : Option String := none
  scanned : Bool := false
deriving DecidableEq, Repr

/-- Crawl configuration, mirroring CrawlConfig in types.ts (only the fields
the engine core reads). -/
structure CrawlConfig where
  url : String
  maxDepth : Nat
  maxPages : Nat
  delay : Nat
  respectRobots : Bool := true
  renderJS : Bool := true
  includeAssets : Bool := true
deriving DecidableEq, Repr

/-- Aggregate statistics, mirroring CrawlStats in types.ts. -/
structure CrawlStats where
  totalLinks : Nat
  scannedPages : Nat
  queuedPages : Nat
  errors : Nat
  assetsFound : Nat
  totalSizeKB : Nat
  startTime : Nat
  currentUrl : String
  depthReached : Nat
deriving DecidableEq, Repr

/-- Run status, mirroring the CrawlStatus enum of types.ts.  Note the enum
has no aborted member. -/
inductive CrawlStatus where
  | IDLE
  | RUNNING
  | PAUSED
  | COMPLETED
  | FAILED
deriving DecidableEq, Repr

/-- Suffix test on character lists: s ends with pat. -/
def endsWithCh (s pat : List Char) : Bool :=
  pat.reverse.isPrefixOf s.reverse

/-- Prefix test on strings via their character lists, modelling the
JavaScript String.prototype.startsWith used on node statuses. -/
def strStartsWith (s pat : String) : Bool :=
  pat.data.isPrefixOf s.data

/-- Case-insensitive suffix test: the source regexes have the shape
backslash-dot (alt1|alt2|...) dollar with the i flag, which on the
lower-cased URL is exactly a suffix test against each dotted
alternative. -/
def extMatches (url : String) (exts : List String) : Bool :=
  exts.any fun e => endsWithCh (url.data.map Char.toLower) ('.' :: e.data)

/-- Content-Type Classifier: guessContentType of the service module.  Maps a
URL to a coarse content category by extension, defaulting to text/html. -/
def guessContentType (url : String) : ContentType :=
  if extMatches url ["jpg", "jpeg", "gif", "webp"] then .imageJpeg
  else if extMatches url ["png"] then .imagePng
  else if extMatches url ["js"] then .applicationJavascript
  else if extMatches url ["css"] then .textCss
  else if extMatches url ["pdf"] then .applicationPdf
  else if extMatches url ["json"] then .applicationJson
  else .textHtml

/-- Substring containment on the character lists, modelling the JavaScript
String.prototype.includes used by the quota check. -/
def strIncludes (s pat : String) : Bool :=
  go s.toList pat.toList
where
  go : List Char → List Char → Bool
    | s, pat =>
      if pat.isPrefixOf s then true
      else match s with
        | [] => false
        | _ :: rest => go rest pat

/-- Shape of a caught error object.  The source inspects the dynamic fields
status, code and message of the thrown value; a JavaScript status field
holds either a number (429) or a string (RESOURCE_EXHAUSTED), modelled here
as two separate optional fields of which real errors populate at most one. -/
structure ErrInfo where
  statusNat : Option Nat := none
  statusStr : Option String := none
  code : Option Nat := none
  message : Option String := none
deriving DecidableEq, Repr

/-- Quota / rate-limit detection, from the isQuotaError test of
fetchPageLinks: numeric 429 status, numeric 429 code, a RESOURCE_EXHAUSTED
status string, or a truthy message containing 429 or quota. -/
def isQuotaError (e : ErrInfo) : Bool :=
  e.statusNat == some 429 ||
  e.code == some 429 ||
  e.statusStr == some "RESOURCE_EXHAUSTED" ||
  (match e.message with
   | some m => !(m == "") && (strIncludes m "429" || strIncludes m "quota")
   | none => false)

/-- One candidate link descriptor as produced by the oracle, mirroring the
fields the mapping step reads from each parsed array element. -/
structure RawLink where
  url : String
  title : Option String := none
  type : Option NodeType := none
  status : Option String := none
  discoverySource : Option String := none
deriving DecidableEq, Repr

/-- Abstraction of the response text after fence stripping: either the
JSON.parse call throws (unparseable), or it yields a JSON value that is not
an array (so that the subsequent .map call raises a TypeError), or it
yields an array of link records. -/
inductive Payload where
  | unparseable
  | nonList
  | list (links : List RawLink)
deriving DecidableEq, Repr

/-- Outcome of one generateContent call: a thrown error, or a response whose
text is absent (none) or holds a payload. -/
inductive CallResult where
  | ok (text : Option Payload)
  | err (e : ErrInfo)
deriving DecidableEq, Repr

/-- Timed-event trace entries: an oracle call on a key at a 0-based attempt
index, or a timed wait measured in seconds. -/
inductive Ev where
  | call (key attempt : Nat)
  | wait (units : Nat)
deriving DecidableEq, Repr

/-- JavaScript-style defaulting with the or operator: an absent or empty
string falls back to the default. -/
def jsOr (o : Option String) (dflt : String) : String :=
  match o with
  | some s => if s == "" then dflt else s
  | none => dflt

/-- Mapping of the j-th parsed link record to a LinkNode, from the map step
of fetchPageLinks.  The content category is recomputed by the classifier
(never trusted from the oracle); depth is parent depth + 1; size and
response time model floor(random()*100)+5 and floor(random()*200)+20 with
the random draws supplied by sizeF / rtF. -/
def mapRawLink (currentUrl : String) (currentDepth : Nat)
    (sizeF rtF : Nat → Nat) (j : Nat) (link : RawLink) : LinkNode :=
  { id := link.url
    url := link.url
    title := some (jsOr link.title "Untitled")
    depth := currentDepth + 1
    parentId := some currentUrl
    status := jsOr link.status "200"
    type := link.type.getD .internal
    contentType := guessContentType link.url
    size := some (sizeF j % 100 + 5)
    responseTime := some (rtF j % 200 + 20)
    discoverySource := some (jsOr link.discoverySource "anchor")
    scanned := false }

/-- Result of executing the body of one attempt (the try block): either a
normal return of (links, usedKeyIndex), or an error reaching the catch
handler.  A nonList payload reaches the handler through the TypeError
raised by calling .map on a non-array. -/
inductive AttemptRes where
  | ret (links : List LinkNode) (idx : Nat)
  | caught (e : ErrInfo)
deriving DecidableEq, Repr

/-- Error object for the TypeError raised when the parsed payload is not an
array and .map is applied to it.  Its message contains neither 429 nor
quota, so it is handled as a non-quota error. -/
def mapTypeError : ErrInfo :=
  { message := some "rawLinks.map is not a function" }

/-- Error thrown by fetchPageLinks when the key list is empty. -/
def noKeysError : ErrInfo :=
  { message := some "No API Keys provided." }

/-- Semantics of the try block of one attempt on key k, attempt a: mirrors
lines 71-109 of the service module.  An absent text or an unparseable
payload returns an empty list with the current key; a list payload is
mapped; an array-shaped failure (nonList) or a thrown call error reaches
the catch handler. -/
def attemptResult (oracle : Nat → Nat → CallResult) (sizeF rtF : Nat → Nat)
    (currentUrl : String) (currentDepth : Nat) (k a : Nat) : AttemptRes :=
  match oracle k a with
  | .err e => .caught e
  | .ok none => .ret [] k
  | .ok (some .unparseable) => .ret [] k
  | .ok (some .nonList) => .caught mapTypeError
  | .ok (some (.list rls)) =>
      .ret (rls.mapIdx fun j l => mapRawLink currentUrl currentDepth sizeF rtF j l) k

/-- Outcome of the inner (per-key) attempt loop: a successful return, a
break to the next key (quota exhaustion of this key), or a thrown fatal
error. -/
inductive InnerOut where
  | success (links : List LinkNode) (idx : Nat)
  | nextKey
  | fatal (e : ErrInfo)
deriving DecidableEq, Repr

/-- Inner retry loop of fetchPageLinks on one key: up to 3 attempts, fuel
counting the attempts remaining (the source loop bound attempt < 3).  On a
quota error at attempt index a < 2 it waits 10 units and retries the same
key; at a = 2 it breaks to the next key.  On a non-quota error at a = 2 it
throws; otherwise it waits 2*(a+1) units and retries.  The threaded
lastErr mirrors the lastError assignment at the top of the catch block. -/
def tryKey (oracle : Nat → Nat → CallResult) (sizeF rtF : Nat → Nat)
    (currentUrl : String) (currentDepth : Nat) (k : Nat) :
    Nat → Nat → Option ErrInfo → InnerOut × Option ErrInfo × List Ev
  | 0, _, lastErr => (.nextKey, lastErr, [])
  | fuel + 1, a, lastErr =>
    match attemptResult oracle sizeF rtF currentUrl currentDepth k a with
    | .ret links idx => (.success links idx, lastErr, [.call k a])
    | .caught e =>
      if isQuotaError e then
        if a < 2 then
          let r := tryKey oracle sizeF rtF currentUrl currentDepth k fuel (a + 1) (some e)
          (r.1, r.2.1, .call k a :: .wait 10 :: r.2.2)
        else (.nextKey, some e, [.call k a])
      else
        if a == 2 then (.fatal e, some e, [.call k a])
        else
          let r := tryKey oracle sizeF rtF currentUrl currentDepth k fuel (a + 1) (some e)
          (r.1, r.2.1, .call k a :: .wait (2 * (a + 1)) :: r.2.2)

/-- Outer key-rotation loop of fetchPageLinks: keys from index k while
k < len, fuel encoding len - k.  When the loop ends, a recorded lastError
is thrown, otherwise the empty-list fallback with the last key index is
returned (lines 64-156 of the service module). -/
def keyLoop (oracle : Nat → Nat → CallResult) (sizeF rtF : Nat → Nat)
    (currentUrl : String) (currentDepth : Nat) (len : Nat) :
    Nat → Nat → Option ErrInfo →
    Except ErrInfo (List LinkNode × Nat) × List Ev
  | 0, _, lastErr =>
    (match lastErr with
     | some e => (.error e, [])
     | none => (.ok ([], len - 1), []))
  | fuel + 1, k, lastErr =>
    match tryKey oracle sizeF rtF currentUrl currentDepth k 3 0 lastErr with
    | (.success links idx, _, evs) => (.ok (links, idx), evs)
    | (.fatal e, _, evs) => (.error e, evs)
    | (.nextKey, le, evs) =>
      let r := keyLoop oracle sizeF rtF currentUrl currentDepth len fuel (k + 1) le
      (r.1, evs ++ r.2)

/-- Oracle Client operation expand: fetchPageLinks of the service module.
Throws when the key list is empty; short-circuits non-HTML URLs to an
empty child list with the incoming key index and no oracle contact;
otherwise runs the rotation loop from activeKeyIndex.  Returns the
result together with the event trace of oracle calls and timed waits. -/
def fetchPageLinks (oracle : Nat → Nat → CallResult) (sizeF rtF : Nat → Nat)
    (apiKeys : List String) (activeKeyIndex : Nat)
    (currentUrl rootUrl : String) (currentDepth : Nat) :
    Except ErrInfo (List LinkNode × Nat) × List Ev :=
  if apiKeys.length == 0 then (.error noKeysError, [])
  else if guessContentType currentUrl != .textHtml then
    (.ok ([], activeKeyIndex), [])
  else
    keyLoop oracle sizeF rtF currentUrl currentDepth apiKeys.length
      (apiKeys.length - activeKeyIndex) activeKeyIndex none

/-- State of the traversal engine, from the refs and React state of App.tsx:
queue (queueRef), visited (visitedRef, a set of URLs), nodes (nodesRef),
isRunning (isRunningRef), status, stats, keyIndex (currentKeyIndexRef) and
the key pool (apiKeysRef).  halted records that finishCrawl ran and no
further step is scheduled; reportRequested records that analyzeOrphans was
invoked.  dequeuedLog and expandedLog are ghost histories of the nodes
dequeued and of the nodes for which an expansion was issued. -/
structure EngineState where
  queue : List LinkNode
  visited : List String
  nodes : List LinkNode
  isRunning : Bool
  status : CrawlStatus
  stats : CrawlStats
  keyIndex : Nat
  apiKeys : List String
  halted : Bool
  reportRequested : Bool
  dequeuedLog : List LinkNode
  expandedLog : List LinkNode
deriving Repr

/-- Replacement of the first node whose id matches, from updateNodeState of
App.tsx (findIndex then assignment; no change when the id is absent). -/
def updateNodeState (nodes : List LinkNode) (u : LinkNode) : List LinkNode :=
  match nodes with
  | [] => []
  | n :: rest => if n.id == u.id then u :: rest else n :: updateNodeState rest u

/-- Child-merge loop of processQueue (lines 221-231 of App.tsx): each child
whose URL is not yet visited is added to the visited set and appended to
the node set, and is appended to the frontier queue exactly when it is
internal with HTML content; an already-visited child is dropped with no
state change. -/
def mergeChildren (visited : List String) (nodes queue : List LinkNode) :
    List LinkNode → List String × List LinkNode × List LinkNode
  | [] => (visited, nodes, queue)
  | c :: cs =>
    if c.url ∈ visited then mergeChildren visited nodes queue cs
    else
      mergeChildren (c.url :: visited) (nodes ++ [c])
        (if c.type == NodeType.internal && c.contentType == ContentType.textHtml
         then queue ++ [c] else queue) cs

/-- Status string derived from a caught expansion error, from the catch
block of processQueue: (err.status or err.code or 500) stringified, with a
falsy status (absent, 0 or empty) falling through. -/
def errStatusString (e : ErrInfo) : String :=
  if e.statusNat.getD 0 != 0 then toString (e.statusNat.getD 0)
  else if e.statusStr.getD "" != "" then e.statusStr.getD ""
  else if e.code.getD 0 != 0 then toString (e.code.getD 0)
  else "500"

/-- Node status assigned on a failed expansion (lines 258-264 of App.tsx):
404 when the status string or message mentions 404, else 403 likewise,
else 500.  The message falls back to the empty string when absent (the
source stringifies the whole error object there). -/
def classifyNodeStatus (e : ErrInfo) : String :=
  let msg := e.message.getD ""
  let st := errStatusString e
  if st == "404" || strIncludes msg "404" then "404"
  else if st == "403" || strIncludes msg "403" then "403"
  else "500"

/-- Finalisation of a run, from finishCrawl of App.tsx: status COMPLETED,
run flag cleared, no further step scheduled, and the report request
(analyzeOrphans) issued exactly when the active key is a non-empty
string. -/
def finishCrawl (s : EngineState) : EngineState :=
  { s with status := .COMPLETED
           isRunning := false
           halted := true
           reportRequested := (s.apiKeys.getD s.keyIndex "") != "" }

/-- Stop operation, from stopCrawl of App.tsx: clears the run flag and sets
the status to IDLE.  It does not cancel the already-scheduled step. -/
def stopCrawl (s : EngineState) : EngineState :=
  { s with isRunning := false, status := .IDLE }

/-- Start of a run, from the successful path of startRecursiveCrawl of
App.tsx (the guards reject an empty URL, a missing key pool and an already
running crawl): fresh queue / visited / nodes holding only the seed node
at depth 0, run flag set, statistics initialised to one discovered and one
queued page.  keyIdx0 is the key cursor carried over from connect time. -/
def startCrawl (cfg : CrawlConfig) (apiKeys : List String) (keyIdx0 : Nat)
    (startTime : Nat) : EngineState :=
  let rootNode : LinkNode :=
    { id := cfg.url, url := cfg.url, depth := 0, type := .internal
      status := "pending", contentType := .textHtml
      discoverySource := some "anchor", title := some "Root", scanned := false }
  { queue := [rootNode]
    visited := [cfg.url]
    nodes := [rootNode]
    isRunning := true
    status := .RUNNING
    stats :=
      { totalLinks := 1, scannedPages := 0, queuedPages := 1, errors := 0
        assetsFound := 0, totalSizeKB := 0, startTime := startTime
        currentUrl := cfg.url, depthReached := 0 }
    keyIndex := keyIdx0
    apiKeys := apiKeys
    halted := false
    reportRequested := false
    dequeuedLog := []
    expandedLog := [] }

/-- Type of the expansion callback the engine drives once per dequeued
node: current URL, current depth and current key index to either a fatal
error or (children, usedKeyIndex), the interface of fetchPageLinks as seen
from processQueue. -/
def ExpandFn : Type :=
  String → Nat → Nat → Except ErrInfo (List LinkNode × Nat)

/-- State right after the dequeue of the head node current (lines 184-187
of App.tsx): the frontier loses its head, the statistics record the node
under scan and the new queue length, and the ghost dequeue log grows. -/
def dequeuedState (s : EngineState) (current : LinkNode) (rest : List LinkNode) :
    EngineState :=
  { s with queue := rest
           stats := { s.stats with currentUrl := current.url
                                   queuedPages := rest.length }
           dequeuedLog := s.dequeuedLog ++ [current] }

/-- State right after the dequeued node is marked scanning and the
expansion is issued (lines 194-211 of App.tsx): the node-set entry of
current is replaced by its scanning copy and the ghost expansion log
grows. -/
def scanningState (s1 : EngineState) (current : LinkNode) : EngineState :=
  { s1 with nodes := updateNodeState s1.nodes { current with status := "scanning" }
            expandedLog := s1.expandedLog ++ [current] }

/-- State after a successful expansion (lines 213-247 of App.tsx): the key
cursor takes the index the client used, the children are merged into
visited set / node set / frontier, the parent is marked scanned with
status 200, and the statistics are updated: totalLinks, errors and
assetsFound are recomputed over the node set, while scannedPages,
depthReached and totalSizeKB are updated incrementally (depthReached from
the parent depth, totalSizeKB from the sizes of all returned children). -/
def successState (s2 : EngineState) (current : LinkNode)
    (children : List LinkNode) (usedKeyIndex : Nat) : EngineState :=
  let m := mergeChildren s2.visited s2.nodes s2.queue children
  let scannedNode : LinkNode := { current with status := "200", scanned := true }
  let newNodes := updateNodeState m.2.1 scannedNode
  { s2 with
    keyIndex := usedKeyIndex
    visited := m.1
    nodes := newNodes
    queue := m.2.2
    stats :=
      { s2.stats with
        totalLinks := newNodes.length
        scannedPages := s2.stats.scannedPages + 1
        queuedPages := m.2.2.length
        errors := (newNodes.filter fun n => strStartsWith n.status "4").length
        assetsFound := (newNodes.filter fun n => n.type == .resource).length
        depthReached := max s2.stats.depthReached current.depth
        totalSizeKB := s2.stats.totalSizeKB +
          (children.map fun c => c.size.getD 0).sum } }

/-- State after a failed expansion (lines 251-266 of App.tsx): the node-set
entry of current gets the status derived from the error; the statistics
keep the values set at dequeue time. -/
def errorState (s2 : EngineState) (current : LinkNode) (e : ErrInfo) :
    EngineState :=
  { s2 with nodes := updateNodeState s2.nodes
              { current with status := classifyNodeStatus e } }

/-- One scheduled invocation of processQueue (lines 178-268 of App.tsx).
Termination check first (run flag cleared, empty frontier, or page budget
reached) finalising the run; otherwise the head node is dequeued; a node
at maximal depth is skipped (left pending, not expanded); otherwise it is
marked scanning and the expansion is issued with the current key cursor,
landing in the success or error state above. -/
def step (cfg : CrawlConfig) (f : ExpandFn) (s : EngineState) : EngineState :=
  if !s.isRunning || s.queue.length == 0 || cfg.maxPages ≤ s.nodes.length then
    finishCrawl s
  else
    match s.queue with
    | [] => s
    | current :: rest =>
      if cfg.maxDepth ≤ current.depth then dequeuedState s current rest
      else
        match f current.url current.depth s.keyIndex with
        | .ok (children, usedKeyIndex) =>
          successState (scanningState (dequeuedState s current rest) current)
            current children usedKeyIndex
        | .error e =>
          errorState (scanningState (dequeuedState s current rest) current) current e

/-- Reachable engine states of a crawl run: the start state, and closure
under a scheduled step (only while one is scheduled, i.e. not halted) and
under the stop operation, which the user may issue at any time. -/
inductive Reach (cfg : CrawlConfig) (f : ExpandFn) : EngineState → Prop
  | start (apiKeys : List String) (keyIdx0 startTime : Nat) :
      Reach cfg f (startCrawl cfg apiKeys keyIdx0 startTime)
  | step {s : EngineState} : Reach cfg f s → s.halted = false →
      Reach cfg f (step cfg f s)
  | stop {s : EngineState} : Reach cfg f s → Reach cfg f (stopCrawl s)

/-- Well-formedness of an expansion callback, established below for the
modelled fetchPageLinks: every returned child has id equal to its URL,
depth equal to the parent depth plus one, content category recomputed by
the classifier from its URL, and is initially unscanned. -/
def GoodExpand (f : ExpandFn) : Prop :=
  ∀ url d k children i, f url d k = .ok (children, i) →
    ∀ c ∈ children, c.id = c.url ∧ c.depth = d + 1 ∧
      c.contentType = guessContentType c.url ∧ c.scanned = false

/-- Bound on the number of children any single expansion can return. -/
def BoundedExpand (f : ExpandFn) (K : Nat) : Prop :=
  ∀ url d k children i, f url d k = .ok (children, i) → children.length ≤ K

/-- Admission condition for the frontier: internal classification and HTML
content category, the enqueue test of the merge loop. -/
def isFrontier (c : LinkNode) : Bool :=
  c.type == NodeType.internal && c.contentType == ContentType.textHtml

/-- Children admitted by the merge loop given the incoming visited set: a
child is admitted exactly when its URL is not yet visited, the visited set
growing as the loop advances. -/
def admitted (v : List String) : List LinkNode → List LinkNode
  | [] => []
  | c :: cs =>
    if c.url ∈ v then admitted v cs
    else c :: admitted (c.url :: v) cs

/-- Visited set left by the merge loop. -/
def admittedVisited (v : List String) : List LinkNode → List String
  | [] => v
  | c :: cs =>
    if c.url ∈ v then admittedVisited v cs
    else admittedVisited (c.url :: v) cs

/-- Number of scanned nodes in the node set. -/
def scannedCount (nodes : List LinkNode) : Nat :=
  nodes.countP fun n => n.scanned

/-- Maximum depth over the scanned nodes of the node set (0 when none). -/
def maxScannedDepth (nodes : List LinkNode) : Nat :=
  nodes.foldr (fun n acc => if n.scanned then max n.depth acc else acc) 0

/-- Depth of the most recently dequeued node (0 before any dequeue). -/
def lastDepth (s : EngineState) : Nat :=
  (s.dequeuedLog.map LinkNode.depth).getLastD 0

/-- Inductive invariant of the traversal engine, established for every
reachable state of a run driven by a well-formed expansion callback: ids
coincide with URLs, frontier entries are unscanned members of the node
set, URLs are unique across the node set and across the frontier, every
node URL is visited, frontier entries are internal HTML nodes, the
totalLinks / scannedPages / depthReached statistics agree with the node
set (depthReached as the maximum over scanned nodes), the dequeue log is
non-decreasing in depth, the expansion log is a sublist of the dequeue
log, and the frontier depths are non-decreasing and lie within one level
of the last dequeued depth. -/
structure Inv (s : EngineState) : Prop where
  idUrl : ∀ n ∈ s.nodes, n.id = n.url
  queueMem : ∀ q ∈ s.queue, q ∈ s.nodes ∧ q.scanned = false
  nodupNodes : (s.nodes.map LinkNode.url).Nodup
  nodesVisited : ∀ n ∈ s.nodes, n.url ∈ s.visited
  nodupQueue : (s.queue.map LinkNode.url).Nodup
  queueHtml : ∀ q ∈ s.queue,
    q.contentType = ContentType.textHtml ∧ q.type = NodeType.internal
  statsTotal : s.stats.totalLinks = s.nodes.length
  statsScanned : s.stats.scannedPages = scannedCount s.nodes
  statsDepth : s.stats.depthReached = maxScannedDepth s.nodes
  dequeuedMono : List.Pairwise (· ≤ ·) (s.dequeuedLog.map LinkNode.depth)
  expandedSub : s.expandedLog.Sublist s.dequeuedLog
  queueMono : List.Pairwise (· ≤ ·) (s.queue.map LinkNode.depth)
  queueLB : ∀ q ∈ s.queue, lastDepth s ≤ q.depth
  queueUB : ∀ q ∈ s.queue, q.depth ≤ lastDepth s + 1
  logLast : ∀ x ∈ s.dequeuedLog, x.depth ≤ lastDepth s

/-- Property bundle every child produced by the oracle client enjoys. -/
def ChildProps (d : Nat) (c : LinkNode) : Prop :=
  c.id = c.url ∧ c.depth = d + 1 ∧
  c.contentType = guessContentType c.url ∧ c.scanned = false

/-- Trace of one fully quota-exhausted credential: 3 calls with a fixed
10-unit cooldown before each same-key retry. -/
def quotaKeyTrace (k : Nat) : List Ev :=
  [.call k 0, .wait 10, .call k 1, .wait 10, .call k 2]

/-- Trace of a run in which every credential from k on (count many) is
quota-exhausted: the per-key patterns in rotation order. -/
def quotaTraceFrom (k : Nat) : Nat → List Ev
  | 0 => []
  | count + 1 => quotaKeyTrace k ++ quotaTraceFrom (k + 1) count

/-! Concrete instances used by the witnesses and counterexamples below. -/

/-- Concrete 2-credential pool (the app accepts keys longer than 20
characters). -/
def exKeys : List String :=
  ["AAAAAAAAAAAAAAAAAAAAAAAAAk1", "AAAAAAAAAAAAAAAAAAAAAAAAAk2"]

/-- Concrete configuration with page budget 2. -/
def cfgEx2 : CrawlConfig :=
  { url := "https://example.test/", maxDepth := 2, maxPages := 2, delay := 5000 }

/-- Concrete configuration with page budget 10. -/
def cfgEx10 : CrawlConfig :=
  { url := "https://example.test/", maxDepth := 2, maxPages := 10, delay := 5000 }

/-- Oracle error carrying the reserved rate-limit status code. -/
def quotaErr429 : ErrInfo := { statusNat := some 429 }

/-- Oracle error carrying a server fault, not quota related. -/
def srvErr500 : ErrInfo :=
  { statusNat := some 500, message := some "Internal failure" }

/-- Oracle behaviour: every credential reports quota exhaustion on every
attempt. -/
def oracleAllQuota : Nat → Nat → CallResult := fun _ _ => .err quotaErr429

/-- Oracle behaviour: the first credential always fails with a server
fault while the second would succeed. -/
def oracleSrvThenOk : Nat → Nat → CallResult := fun k _ =>
  if k == 0 then .err srvErr500 else .ok none

/-- Oracle behaviour: the response text is always empty. -/
def oracleEmptyText : Nat → Nat → CallResult := fun _ _ => .ok none

/-- Oracle behaviour: the payload is always a JSON value that is not the
expected array. -/
def oracleNonListPayload : Nat → Nat → CallResult := fun _ _ => .ok (some .nonList)

/-- Oracle behaviour: two fresh internal HTML children per page. -/
def oracleTwoChildren : Nat → Nat → CallResult := fun _ _ =>
  .ok (some (.list [{ url := "https://example.test/a" },
                    { url := "https://example.test/b" }]))

/-- Oracle behaviour: one fresh child plus a rediscovery of the seed. -/
def oracleDupChild : Nat → Nat → CallResult := fun _ _ =>
  .ok (some (.list [{ url := "https://example.test/a" },
                    { url := "https://example.test/" }]))

/-- Expansion callback driving the engine through the modelled oracle
client with the two-children oracle. -/
def fTwoEx : ExpandFn := fun url d k =>
  (fetchPageLinks oracleTwoChildren (fun _ => 0) (fun _ => 0) exKeys k url
    "https://example.test/" d).1

/-- Expansion callback through the modelled oracle client with the
duplicate-child oracle. -/
def fDupEx : ExpandFn := fun url d k =>
  (fetchPageLinks oracleDupChild (fun _ => 0) (fun _ => 0) exKeys k url
    "https://example.test/" d).1

/-- Trivial expansion callback returning no children. -/
def fEmptyOk : ExpandFn := fun _ _ k => .ok ([], k)

/-- Engine state after the seed expansion under the duplicate-child
oracle. -/
def s5cex : EngineState := step cfgEx10 fDupEx (startCrawl cfgEx10 exKeys 0 0)

theorem mergeChildren_eq (v : List String) (n q : List LinkNode) :
    ∀ cs, mergeChildren v n q cs =
      (admittedVisited v cs, n ++ admitted v cs, q ++ (admitted v cs).filter isFrontier) := by
  intro cs
  induction cs generalizing v n q with
  | nil => simp [mergeChildren, admitted, admittedVisited]
  | cons c cs ih =>
    by_cases hmem : c.url ∈ v
    · simp [mergeChildren, admitted, admittedVisited, hmem, ih]
    · simp only [mergeChildren, admitted, admittedVisited, hmem, if_false, ih,
        List.filter_cons]
      by_cases hf : isFrontier c
      · simp [isFrontier] at hf
        simp [hf.1, hf.2, isFrontier, List.append_assoc]
      · simp only [isFrontier, Bool.and_eq_true, beq_iff_eq, not_and_or] at hf
        rcases hf with hf | hf <;>
          simp [isFrontier, hf, List.append_assoc]

theorem mem_of_mem_admitted {x : LinkNode} :
    ∀ {v cs}, x ∈ admitted v cs → x ∈ cs := by
  intro v cs
  induction cs generalizing v with
  | nil => simp [admitted]
  | cons c cs ih =>
    intro hx
    simp only [admitted] at hx
    split at hx
    · exact List.mem_cons_of_mem _ (ih hx)
    · rcases List.mem_cons.mp hx with h | h
      · exact h ▸ List.mem_cons_self _ _
      · exact List.mem_cons_of_mem _ (ih h)

theorem url_not_mem_of_mem_admitted {x : LinkNode} :
    ∀ {v cs}, x ∈ admitted v cs → x.url ∉ v := by
  intro v cs
  induction cs generalizing v with
  | nil => simp [admitted]
  | cons c cs ih =>
    intro hx
    simp only [admitted] at hx
    split at hx
    · exact ih hx
    · rcases List.mem_cons.mp hx with h | h
      · subst h; assumption
      · intro hv
        exact ih h (List.mem_cons_of_mem _ hv)

theorem admitted_urls_nodup : ∀ (v : List String) (cs : List LinkNode),
    ((admitted v cs).map LinkNode.url).Nodup := by
  intro v cs
  induction cs generalizing v with
  | nil => simp [admitted]
  | cons c cs ih =>
    simp only [admitted]
    split
    · exact ih v
    · simp only [List.map_cons, List.nodup_cons]
      refine ⟨?_, ih _⟩
      intro hmem
      rcases List.mem_map.mp hmem with ⟨y, hy, hurl⟩
      exact url_not_mem_of_mem_admitted hy (hurl ▸ List.mem_cons_self _ _)

theorem admitted_length_le : ∀ (v : List String) (cs : List LinkNode),
    (admitted v cs).length ≤ cs.length := by
  intro v cs
  induction cs generalizing v with
  | nil => simp [admitted]
  | cons c cs ih =>
    simp only [admitted]
    split
    · exact Nat.le_succ_of_le (ih v)
    · simpa using ih (c.url :: v)

theorem subset_admittedVisited : ∀ (v : List String) (cs : List LinkNode),
    v ⊆ admittedVisited v cs := by
  intro v cs
  induction cs generalizing v with
  | nil => simp [admittedVisited]
  | cons c cs ih =>
    simp only [admittedVisited]
    split
    · exact ih v
    · exact fun x hx => ih (c.url :: v) (List.mem_cons_of_mem _ hx)

theorem length_updateNodeState (u : LinkNode) :
    ∀ (nodes : List LinkNode), (updateNodeState nodes u).length = nodes.length := by
  intro nodes
  induction nodes with
  | nil => rfl
  | cons n rest ih =>
    simp only [updateNodeState]
    split <;> simp [ih]

theorem mem_of_mem_updateNodeState {x u : LinkNode} :
    ∀ {nodes : List LinkNode}, x ∈ updateNodeState nodes u → x ∈ nodes ∨ x = u := by
  intro nodes
  induction nodes with
  | nil => simp [updateNodeState]
  | cons n rest ih =>
    intro hx
    simp only [updateNodeState] at hx
    split at hx
    · rcases List.mem_cons.mp hx with h | h
      · exact Or.inr h
      · exact Or.inl (List.mem_cons_of_mem _ h)
    · rcases List.mem_cons.mp hx with h | h
      · exact Or.inl (h ▸ List.mem_cons_self _ _)
      · rcases ih h with h2 | h2
        · exact Or.inl (List.mem_cons_of_mem _ h2)
        · exact Or.inr h2

theorem mem_updateNodeState_of_id_ne (q u : LinkNode) (hne : q.id ≠ u.id) :
    ∀ {nodes : List LinkNode}, q ∈ nodes → q ∈ updateNodeState nodes u := by
  intro nodes
  induction nodes with
  | nil => simp
  | cons n rest ih =>
    intro hq
    simp only [updateNodeState]
    rcases List.mem_cons.mp hq with h | h
    · subst h
      have : ¬(q.id == u.id) = true := by simpa using hne
      simp only [this, if_false]
      exact List.mem_cons_self _ _
    · split
      · exact List.mem_cons_of_mem _ h
      · exact List.mem_cons_of_mem _ (ih h)

theorem self_mem_updateNodeState (e u : LinkNode) (hid : e.id = u.id) :
    ∀ {nodes : List LinkNode}, e ∈ nodes → u ∈ updateNodeState nodes u := by
  intro nodes
  induction nodes with
  | nil => simp
  | cons n rest ih =>
    intro he
    simp only [updateNodeState]
    rcases List.mem_cons.mp he with h | h
    · subst h
      simp only [hid, beq_self_eq_true, if_true]
      exact List.mem_cons_self _ _
    · split
      · exact List.mem_cons_self _ _
      · exact List.mem_cons_of_mem _ (ih h)

theorem map_url_updateNodeState (u : LinkNode) (hu : u.id = u.url) :
    ∀ {nodes : List LinkNode}, (∀ n ∈ nodes, n.id = n.url) →
    (updateNodeState nodes u).map LinkNode.url = nodes.map LinkNode.url := by
  intro nodes
  induction nodes with
  | nil => intro _; rfl
  | cons n rest ih =>
    intro hall
    simp only [updateNodeState]
    by_cases hid : (n.id == u.id) = true
    · have hid2 : n.id = u.id := beq_iff_eq.mp hid
      have hnu : u.url = n.url := by
        rw [← hu, ← hid2, hall n (List.mem_cons_self _ _)]
      rw [if_pos hid]
      simp [hnu]
    · rw [if_neg hid]
      simp only [List.map_cons]
      rw [ih fun x hx => hall x (List.mem_cons_of_mem _ hx)]

theorem countP_updateNodeState_congr (p : LinkNode → Bool) (e u : LinkNode)
    (hid : e.id = u.id) (hpe : p e = p u) :
    ∀ {nodes : List LinkNode}, e ∈ nodes → (nodes.map LinkNode.id).Nodup →
    (updateNodeState nodes u).countP p = nodes.countP p := by
  intro nodes
  induction nodes with
  | nil => simp
  | cons n rest ih =>
    intro he hnd
    simp only [List.map_cons, List.nodup_cons] at hnd
    simp only [updateNodeState]
    by_cases hmatch : (n.id == u.id) = true
    · have hen : e = n := by
        rcases List.mem_cons.mp he with h | h
        · exact h
        · exfalso
          exact hnd.1 (beq_iff_eq.mp hmatch ▸ hid ▸ List.mem_map.mpr ⟨e, h, rfl⟩)
      rw [if_pos hmatch]
      simp only [List.countP_cons]
      rw [← hpe, hen]
    · have hne : e ≠ n := fun h => hmatch (by rw [← h, hid]; exact beq_self_eq_true _)
      have he2 : e ∈ rest := by
        rcases List.mem_cons.mp he with h | h
        · exact absurd h hne
        · exact h
      rw [if_neg hmatch]
      simp only [List.countP_cons, ih he2 hnd.2]

theorem countP_updateNodeState_succ (p : LinkNode → Bool) (e u : LinkNode)
    (hid : e.id = u.id) (hpe : p e = false) (hpu : p u = true) :
    ∀ {nodes : List LinkNode}, e ∈ nodes → (nodes.map LinkNode.id).Nodup →
    (updateNodeState nodes u).countP p = nodes.countP p + 1 := by
  intro nodes
  induction nodes with
  | nil => simp
  | cons n rest ih =>
    intro he hnd
    simp only [List.map_cons, List.nodup_cons] at hnd
    simp only [updateNodeState]
    by_cases hmatch : (n.id == u.id) = true
    · have hen : e = n := by
        rcases List.mem_cons.mp he with h | h
        · exact h
        · exfalso
          exact hnd.1 (beq_iff_eq.mp hmatch ▸ hid ▸ List.mem_map.mpr ⟨e, h, rfl⟩)
      rw [if_pos hmatch]
      simp only [List.countP_cons]
      have hpn : p n = false := hen ▸ hpe
      simp [hpn, hpu]
    · have hne : e ≠ n := fun h => hmatch (by rw [← h, hid]; exact beq_self_eq_true _)
      have he2 : e ∈ rest := by
        rcases List.mem_cons.mp he with h | h
        · exact absurd h hne
        · exact h
      rw [if_neg hmatch]
      simp only [List.countP_cons, ih he2 hnd.2]
      omega

theorem maxScannedDepth_append_unscanned {l2 : List LinkNode}
    (h : ∀ c ∈ l2, c.scanned = false) (l : List LinkNode) :
    maxScannedDepth (l ++ l2) = maxScannedDepth l := by
  have h2 : maxScannedDepth l2 = 0 := by
    induction l2 with
    | nil => rfl
    | cons c cs ih =>
      simp only [maxScannedDepth, List.foldr_cons, h c (List.mem_cons_self _ _), if_false]
      exact ih fun x hx => h x (List.mem_cons_of_mem _ hx)
  unfold maxScannedDepth at h2 ⊢
  rw [List.foldr_append, h2]

theorem maxScannedDepth_updateNodeState_congr (e u : LinkNode)
    (hid : e.id = u.id) (hse : e.scanned = false) (hsu : u.scanned = false) :
    ∀ {nodes : List LinkNode}, e ∈ nodes → (nodes.map LinkNode.id).Nodup →
    maxScannedDepth (updateNodeState nodes u) = maxScannedDepth nodes := by
  intro nodes
  induction nodes with
  | nil => simp
  | cons n rest ih =>
    intro he hnd
    simp only [List.map_cons, List.nodup_cons] at hnd
    simp only [updateNodeState]
    by_cases hmatch : (n.id == u.id) = true
    · have hen : e = n := by
        rcases List.mem_cons.mp he with h | h
        · exact h
        · exfalso
          exact hnd.1 (beq_iff_eq.mp hmatch ▸ hid ▸ List.mem_map.mpr ⟨e, h, rfl⟩)
      rw [if_pos hmatch]
      have hsn : n.scanned = false := hen ▸ hse
      simp only [maxScannedDepth, List.foldr_cons, hsu, hsn]
      simp
    · have hne : e ≠ n := fun h => hmatch (by rw [← h, hid]; exact beq_self_eq_true _)
      have he2 : e ∈ rest := by
        rcases List.mem_cons.mp he with h | h
        · exact absurd h hne
        · exact h
      rw [if_neg hmatch]
      have hih := ih he2 hnd.2
      unfold maxScannedDepth at hih ⊢
      simp only [List.foldr_cons]
      rw [hih]

theorem maxScannedDepth_updateNodeState_scan (e u : LinkNode)
    (hid : e.id = u.id) (hse : e.scanned = false) (hsu : u.scanned = true) :
    ∀ {nodes : List LinkNode}, e ∈ nodes → (nodes.map LinkNode.id).Nodup →
    maxScannedDepth (updateNodeState nodes u) = max u.depth (maxScannedDepth nodes) := by
  intro nodes
  induction nodes with
  | nil => simp
  | cons n rest ih =>
    intro he hnd
    simp only [List.map_cons, List.nodup_cons] at hnd
    simp only [updateNodeState]
    by_cases hmatch : (n.id == u.id) = true
    · have hen : e = n := by
        rcases List.mem_cons.mp he with h | h
        · exact h
        · exfalso
          exact hnd.1 (beq_iff_eq.mp hmatch ▸ hid ▸ List.mem_map.mpr ⟨e, h, rfl⟩)
      rw [if_pos hmatch]
      have hsn : n.scanned = false := hen ▸ hse
      simp only [maxScannedDepth, List.foldr_cons, hsu, hsn]
      simp
    · have hne : e ≠ n := fun h => hmatch (by rw [← h, hid]; exact beq_self_eq_true _)
      have he2 : e ∈ rest := by
        rcases List.mem_cons.mp he with h | h
        · exact absurd h hne
        · exact h
      rw [if_neg hmatch]
      have hihp := ih he2 hnd.2
      unfold maxScannedDepth at hihp ⊢
      simp only [List.foldr_cons]
      rw [hihp]
      by_cases hn : n.scanned = true
      · simp only [hn, if_true]
        exact Nat.max_left_comm _ _ _
      · simp only [Bool.not_eq_true] at hn
        simp [hn]

theorem admitted_url_mem_visited {x : LinkNode} :
    ∀ {v cs}, x ∈ admitted v cs → x.url ∈ admittedVisited v cs := by
  intro v cs
  induction cs generalizing v with
  | nil => simp [admitted]
  | cons c cs ih =>
    intro hx
    by_cases hmem : c.url ∈ v
    · simp only [admitted, hmem, if_true] at hx
      simp only [admittedVisited, hmem, if_true]
      exact ih hx
    · simp only [admitted, hmem, if_false] at hx
      simp only [admittedVisited, hmem, if_false]
      rcases List.mem_cons.mp hx with h | h
      · subst h
        exact subset_admittedVisited _ _ (List.mem_cons_self _ _)
      · exact ih h

theorem map_id_eq_map_url {nodes : List LinkNode}
    (h : ∀ n ∈ nodes, n.id = n.url) :
    nodes.map LinkNode.id = nodes.map LinkNode.url :=
  List.map_congr_left h

theorem lastDepth_concat (log : List LinkNode) (c : LinkNode) :
    ((log ++ [c]).map LinkNode.depth).getLastD 0 = c.depth := by
  rw [List.map_append]
  exact List.getLastD_concat _ _ _

theorem inv_startCrawl (cfg : CrawlConfig) (apiKeys : List String)
    (keyIdx0 startTime : Nat) : Inv (startCrawl cfg apiKeys keyIdx0 startTime) := by
  refine ⟨?_, ?_, ?_, ?_, ?_, ?_, ?_, ?_, ?_, ?_, ?_, ?_, ?_, ?_, ?_⟩ <;>
    simp [startCrawl, lastDepth, scannedCount, maxScannedDepth]

theorem inv_stopCrawl {s : EngineState} (h : Inv s) : Inv (stopCrawl s) :=
  { idUrl := h.idUrl, queueMem := h.queueMem, nodupNodes := h.nodupNodes
    nodesVisited := h.nodesVisited, nodupQueue := h.nodupQueue
    queueHtml := h.queueHtml, statsTotal := h.statsTotal
    statsScanned := h.statsScanned, statsDepth := h.statsDepth
    dequeuedMono := h.dequeuedMono, expandedSub := h.expandedSub
    queueMono := h.queueMono, queueLB := h.queueLB, queueUB := h.queueUB
    logLast := h.logLast }

theorem inv_finishCrawl {s : EngineState} (h : Inv s) : Inv (finishCrawl s) :=
  { idUrl := h.idUrl, queueMem := h.queueMem, nodupNodes := h.nodupNodes
    nodesVisited := h.nodesVisited, nodupQueue := h.nodupQueue
    queueHtml := h.queueHtml, statsTotal := h.statsTotal
    statsScanned := h.statsScanned, statsDepth := h.statsDepth
    dequeuedMono := h.dequeuedMono, expandedSub := h.expandedSub
    queueMono := h.queueMono, queueLB := h.queueLB, queueUB := h.queueUB
    logLast := h.logLast }

theorem inv_dequeuedState {s : EngineState} (h : Inv s) {current : LinkNode}
    {rest : List LinkNode} (heq : s.queue = current :: rest) :
    Inv (dequeuedState s current rest) := by
  have hcur : current ∈ s.queue := heq ▸ List.mem_cons_self _ _
  have hsubq : ∀ q ∈ rest, q ∈ s.queue :=
    fun q hq => heq ▸ List.mem_cons_of_mem _ hq
  have hlast : lastDepth (dequeuedState s current rest) = current.depth := by
    simp only [dequeuedState, lastDepth]
    exact lastDepth_concat _ _
  have hLB : lastDepth s ≤ current.depth := h.queueLB current hcur
  have hmonoQ : List.Pairwise (· ≤ ·)
      (current.depth :: rest.map LinkNode.depth) := by
    have := h.queueMono
    rw [heq, List.map_cons] at this
    exact this
  have hhead : ∀ b ∈ rest.map LinkNode.depth, current.depth ≤ b :=
    (List.pairwise_cons.mp hmonoQ).1
  have hnodupq : (rest.map LinkNode.url).Nodup := by
    have := h.nodupQueue
    rw [heq, List.map_cons, List.nodup_cons] at this
    exact this.2
  refine ⟨h.idUrl, ?_, h.nodupNodes, h.nodesVisited, hnodupq, ?_,
    h.statsTotal, h.statsScanned, h.statsDepth, ?_, ?_, ?_, ?_, ?_, ?_⟩
  · exact fun q hq => h.queueMem q (hsubq q hq)
  · exact fun q hq => h.queueHtml q (hsubq q hq)
  · show List.Pairwise (· ≤ ·) ((s.dequeuedLog ++ [current]).map LinkNode.depth)
    rw [List.map_append]
    refine List.pairwise_append.mpr ⟨h.dequeuedMono, List.pairwise_singleton _ _, ?_⟩
    intro a ha b hb
    rcases List.mem_map.mp ha with ⟨x, hx, hxa⟩
    rcases List.mem_singleton.mp (by simpa using hb) with rfl
    exact hxa ▸ le_trans (h.logLast x hx) hLB
  · exact h.expandedSub.trans (List.sublist_append_left _ _)
  · exact (List.pairwise_cons.mp hmonoQ).2
  · intro q hq
    rw [hlast]
    exact hhead q.depth (List.mem_map.mpr ⟨q, hq, rfl⟩)
  · intro q hq
    rw [hlast]
    exact le_trans (h.queueUB q (hsubq q hq)) (Nat.succ_le_succ hLB)
  · intro x hx
    rw [hlast]
    rcases List.mem_append.mp hx with hx | hx
    · exact le_trans (h.logLast x hx) hLB
    · rcases List.mem_singleton.mp hx with rfl
      exact le_refl _

theorem inv_errorStep {s : EngineState} (h : Inv s) {current : LinkNode}
    {rest : List LinkNode} (heq : s.queue = current :: rest) (e : ErrInfo) :
    Inv (errorState (scanningState (dequeuedState s current rest) current) current e) := by
  have h1 := inv_dequeuedState h heq
  have hcur : current ∈ s.queue := heq ▸ List.mem_cons_self _ _
  have hcurN : current ∈ s.nodes := (h.queueMem current hcur).1
  have hcurS : current.scanned = false := (h.queueMem current hcur).2
  have hcurIU : current.id = current.url := h.idUrl current hcurN
  have hcurV : current.url ∈ s.visited := h.nodesVisited current hcurN
  have hsubq : ∀ q ∈ rest, q ∈ s.queue :=
    fun q hq => heq ▸ List.mem_cons_of_mem _ hq
  have hidsA : (s.nodes.map LinkNode.id).Nodup := by
    rw [map_id_eq_map_url h.idUrl]; exact h.nodupNodes
  have hN1id : ∀ n ∈ updateNodeState s.nodes { current with status := "scanning" },
      n.id = n.url := by
    intro n hn
    rcases mem_of_mem_updateNodeState hn with hn | rfl
    · exact h.idUrl n hn
    · exact hcurIU
  have hN1map : (updateNodeState s.nodes
      { current with status := "scanning" }).map LinkNode.url
      = s.nodes.map LinkNode.url :=
    map_url_updateNodeState { current with status := "scanning" } hcurIU h.idUrl
  have hN1nodup : ((updateNodeState s.nodes
      { current with status := "scanning" }).map LinkNode.id).Nodup := by
    rw [map_id_eq_map_url hN1id, hN1map]; exact h.nodupNodes
  have hu1mem : ({ current with status := "scanning" } : LinkNode)
      ∈ updateNodeState s.nodes { current with status := "scanning" } :=
    self_mem_updateNodeState current { current with status := "scanning" } rfl hcurN
  have hN2map : (updateNodeState
      (updateNodeState s.nodes { current with status := "scanning" })
      { current with status := classifyNodeStatus e }).map LinkNode.url
      = s.nodes.map LinkNode.url := by
    rw [map_url_updateNodeState { current with status := classifyNodeStatus e }
      hcurIU hN1id, hN1map]
  have hN2len : (updateNodeState
      (updateNodeState s.nodes { current with status := "scanning" })
      { current with status := classifyNodeStatus e }).length
      = s.nodes.length := by
    rw [length_updateNodeState, length_updateNodeState]
  have hqne : ∀ q ∈ rest, ¬(q.id = current.id) := by
    intro q hq hid2
    have hquN : q ∈ s.nodes := (h.queueMem q (hsubq q hq)).1
    have : current.url ∉ rest.map LinkNode.url := by
      have := h.nodupQueue
      rw [heq, List.map_cons, List.nodup_cons] at this
      exact this.1
    exact this (List.mem_map.mpr ⟨q, hq, by rw [← h.idUrl q hquN, hid2, hcurIU]⟩)
  refine ⟨?_, ?_, ?_, ?_, h1.nodupQueue, h1.queueHtml, ?_, ?_, ?_,
    h1.dequeuedMono, ?_, h1.queueMono, h1.queueLB, h1.queueUB, h1.logLast⟩
  · intro n hn
    rcases mem_of_mem_updateNodeState hn with hn | rfl
    · exact hN1id n hn
    · exact hcurIU
  · intro q hq
    refine ⟨?_, (h.queueMem q (hsubq q hq)).2⟩
    exact mem_updateNodeState_of_id_ne q { current with status := classifyNodeStatus e }
      (hqne q hq)
      (mem_updateNodeState_of_id_ne q { current with status := "scanning" }
        (hqne q hq) (h.queueMem q (hsubq q hq)).1)
  · show ((updateNodeState (updateNodeState s.nodes _) _).map LinkNode.url).Nodup
    rw [hN2map]
    exact h.nodupNodes
  · intro n hn
    rcases mem_of_mem_updateNodeState hn with hn | rfl
    · rcases mem_of_mem_updateNodeState hn with hn | rfl
      · exact h.nodesVisited n hn
      · exact hcurV
    · exact hcurV
  · show s.stats.totalLinks = (updateNodeState (updateNodeState s.nodes _) _).length
    rw [hN2len]
    exact h.statsTotal
  · show s.stats.scannedPages = scannedCount (updateNodeState (updateNodeState s.nodes _) _)
    unfold scannedCount
    rw [countP_updateNodeState_congr (fun n => n.scanned)
        { current with status := "scanning" }
        { current with status := classifyNodeStatus e } rfl rfl hu1mem hN1nodup,
      countP_updateNodeState_congr (fun n => n.scanned) current
        { current with status := "scanning" } rfl rfl hcurN hidsA]
    exact h.statsScanned
  · show s.stats.depthReached = maxScannedDepth (updateNodeState (updateNodeState s.nodes _) _)
    rw [maxScannedDepth_updateNodeState_congr { current with status := "scanning" }
        { current with status := classifyNodeStatus e } rfl hcurS hcurS hu1mem hN1nodup,
      maxScannedDepth_updateNodeState_congr current { current with status := "scanning" }
        rfl hcurS hcurS hcurN hidsA]
    exact h.statsDepth
  · exact List.Sublist.append h.expandedSub (List.Sublist.refl _)

theorem inv_successStep {s : EngineState} (h : Inv s) {current : LinkNode}
    {rest : List LinkNode} (heq : s.queue = current :: rest)
    {children : List LinkNode} (usedKeyIndex : Nat)
    (hch : ∀ c ∈ children, c.id = c.url ∧ c.depth = current.depth + 1 ∧
      c.contentType = guessContentType c.url ∧ c.scanned = false) :
    Inv (successState (scanningState (dequeuedState s current rest) current)
      current children usedKeyIndex) := by
  have h1 := inv_dequeuedState h heq
  have hcur : current ∈ s.queue := heq ▸ List.mem_cons_self _ _
  have hcurN : current ∈ s.nodes := (h.queueMem current hcur).1
  have hcurS : current.scanned = false := (h.queueMem current hcur).2
  have hcurIU : current.id = current.url := h.idUrl current hcurN
  have hcurV : current.url ∈ s.visited := h.nodesVisited current hcurN
  have hLB : lastDepth s ≤ current.depth := h.queueLB current hcur
  have hsubq : ∀ q ∈ rest, q ∈ s.queue :=
    fun q hq => heq ▸ List.mem_cons_of_mem _ hq
  have hidsA : (s.nodes.map LinkNode.id).Nodup := by
    rw [map_id_eq_map_url h.idUrl]; exact h.nodupNodes
  have hnodupq : (rest.map LinkNode.url).Nodup := by
    have := h.nodupQueue
    rw [heq, List.map_cons, List.nodup_cons] at this
    exact this.2
  have hmonoQ : List.Pairwise (· ≤ ·)
      (current.depth :: rest.map LinkNode.depth) := by
    have := h.queueMono
    rw [heq, List.map_cons] at this
    exact this
  have hhead : ∀ b ∈ rest.map LinkNode.depth, current.depth ≤ b :=
    (List.pairwise_cons.mp hmonoQ).1
  have hN1id : ∀ n ∈ updateNodeState s.nodes { current with status := "scanning" },
      n.id = n.url := by
    intro n hn
    rcases mem_of_mem_updateNodeState hn with hn | rfl
    · exact h.idUrl n hn
    · exact hcurIU
  have hN1map : (updateNodeState s.nodes
      { current with status := "scanning" }).map LinkNode.url
      = s.nodes.map LinkNode.url :=
    map_url_updateNodeState { current with status := "scanning" } hcurIU h.idUrl
  have hu1mem : ({ current with status := "scanning" } : LinkNode)
      ∈ updateNodeState s.nodes { current with status := "scanning" } :=
    self_mem_updateNodeState current { current with status := "scanning" } rfl hcurN
  have hadm : ∀ c ∈ admitted s.visited children,
      c.id = c.url ∧ c.depth = current.depth + 1 ∧
      c.contentType = guessContentType c.url ∧ c.scanned = false :=
    fun c hc => hch c (mem_of_mem_admitted hc)
  have hadmNV : ∀ c ∈ admitted s.visited children, c.url ∉ s.visited :=
    fun c hc => url_not_mem_of_mem_admitted hc
  have hm := mergeChildren_eq s.visited
    (updateNodeState s.nodes { current with status := "scanning" }) rest children
  have hmV : (mergeChildren s.visited
      (updateNodeState s.nodes { current with status := "scanning" })
      rest children).1 = admittedVisited s.visited children := by rw [hm]
  have hmN : (mergeChildren s.visited
      (updateNodeState s.nodes { current with status := "scanning" })
      rest children).2.1
      = updateNodeState s.nodes { current with status := "scanning" }
        ++ admitted s.visited children := by rw [hm]
  have hmQ : (mergeChildren s.visited
      (updateNodeState s.nodes { current with status := "scanning" })
      rest children).2.2
      = rest ++ (admitted s.visited children).filter isFrontier := by rw [hm]
  have hMid : ∀ n ∈ updateNodeState s.nodes { current with status := "scanning" }
      ++ admitted s.visited children, n.id = n.url := by
    intro n hn
    rcases List.mem_append.mp hn with hn | hn
    · exact hN1id n hn
    · exact (hadm n hn).1
  have hMmap : (updateNodeState s.nodes { current with status := "scanning" }
      ++ admitted s.visited children).map LinkNode.url
      = s.nodes.map LinkNode.url
        ++ (admitted s.visited children).map LinkNode.url := by
    rw [List.map_append, hN1map]
  have hMnodupUrl : ((updateNodeState s.nodes { current with status := "scanning" }
      ++ admitted s.visited children).map LinkNode.url).Nodup := by
    rw [hMmap]
    refine List.nodup_append.mpr ⟨h.nodupNodes, admitted_urls_nodup _ _, ?_⟩
    intro a ha hb
    rcases List.mem_map.mp ha with ⟨n, hn, rfl⟩
    rcases List.mem_map.mp hb with ⟨c, hc, hcu⟩
    exact hadmNV c hc (hcu ▸ h.nodesVisited n hn)
  have hMnodupId : ((updateNodeState s.nodes { current with status := "scanning" }
      ++ admitted s.visited children).map LinkNode.id).Nodup := by
    rw [map_id_eq_map_url hMid]; exact hMnodupUrl
  have hu1memM : ({ current with status := "scanning" } : LinkNode)
      ∈ updateNodeState s.nodes { current with status := "scanning" }
        ++ admitted s.visited children :=
    List.mem_append_left _ hu1mem
  have hqne : ∀ q ∈ rest, ¬(q.id = current.id) := by
    intro q hq hid2
    have hquN : q ∈ s.nodes := (h.queueMem q (hsubq q hq)).1
    have hnin : current.url ∉ rest.map LinkNode.url := by
      have := h.nodupQueue
      rw [heq, List.map_cons, List.nodup_cons] at this
      exact this.1
    exact hnin (List.mem_map.mpr ⟨q, hq, by rw [← h.idUrl q hquN, hid2, hcurIU]⟩)
  have hcne : ∀ c ∈ admitted s.visited children, ¬(c.id = current.id) := by
    intro c hc hcid
    exact hadmNV c hc (by rw [← (hadm c hc).1, hcid, hcurIU]; exact hcurV)
  have hlastS : lastDepth (successState
      (scanningState (dequeuedState s current rest) current)
      current children usedKeyIndex) = current.depth := by
    show ((s.dequeuedLog ++ [current]).map LinkNode.depth).getLastD 0 = current.depth
    exact lastDepth_concat _ _
  refine ⟨?_, ?_, ?_, ?_, ?_, ?_, ?_, ?_, ?_, h1.dequeuedMono, ?_, ?_, ?_, ?_, ?_⟩
  · show ∀ n ∈ updateNodeState (mergeChildren s.visited
      (updateNodeState s.nodes _) rest children).2.1 _, n.id = n.url
    rw [hmN]
    intro n hn
    rcases mem_of_mem_updateNodeState hn with hn | rfl
    · exact hMid n hn
    · exact hcurIU
  · show ∀ q ∈ (mergeChildren s.visited (updateNodeState s.nodes _) rest children).2.2,
      q ∈ updateNodeState (mergeChildren s.visited
        (updateNodeState s.nodes _) rest children).2.1 _ ∧ q.scanned = false
    rw [hmQ, hmN]
    intro q hq
    rcases List.mem_append.mp hq with hq | hq
    · refine ⟨?_, (h.queueMem q (hsubq q hq)).2⟩
      exact mem_updateNodeState_of_id_ne q
        { current with status := "200", scanned := true } (hqne q hq)
        (List.mem_append_left _
          (mem_updateNodeState_of_id_ne q { current with status := "scanning" }
            (hqne q hq) (h.queueMem q (hsubq q hq)).1))
    · have hqa : q ∈ admitted s.visited children := (List.mem_filter.mp hq).1
      refine ⟨?_, (hadm q hqa).2.2.2⟩
      exact mem_updateNodeState_of_id_ne q
        { current with status := "200", scanned := true } (hcne q hqa)
        (List.mem_append_right _ hqa)
  · show ((updateNodeState (mergeChildren s.visited
      (updateNodeState s.nodes _) rest children).2.1 _).map LinkNode.url).Nodup
    rw [hmN, map_url_updateNodeState
      { current with status := "200", scanned := true } hcurIU hMid]
    exact hMnodupUrl
  · show ∀ n ∈ updateNodeState (mergeChildren s.visited
      (updateNodeState s.nodes _) rest children).2.1 _,
      n.url ∈ (mergeChildren s.visited
        (updateNodeState s.nodes _) rest children).1
    rw [hmN, hmV]
    intro n hn
    rcases mem_of_mem_updateNodeState hn with hn | rfl
    · rcases List.mem_append.mp hn with hn | hn
      · rcases mem_of_mem_updateNodeState hn with hn | rfl
        · exact subset_admittedVisited _ _ (h.nodesVisited n hn)
        · exact subset_admittedVisited _ _ hcurV
      · exact admitted_url_mem_visited hn
    · exact subset_admittedVisited _ _ hcurV
  · show (((mergeChildren s.visited
      (updateNodeState s.nodes _) rest children).2.2).map LinkNode.url).Nodup
    rw [hmQ, List.map_append]
    refine List.nodup_append.mpr ⟨hnodupq, ?_, ?_⟩
    · exact List.Nodup.sublist
        (List.Sublist.map _ (List.filter_sublist _)) (admitted_urls_nodup _ _)
    · intro a ha hb
      rcases List.mem_map.mp ha with ⟨q, hq, rfl⟩
      rcases List.mem_map.mp hb with ⟨c, hc, hcu⟩
      have hquN : q ∈ s.nodes := (h.queueMem q (hsubq q hq)).1
      exact hadmNV c (List.mem_filter.mp hc).1 (hcu ▸ h.nodesVisited q hquN)
  · show ∀ q ∈ (mergeChildren s.visited
      (updateNodeState s.nodes _) rest children).2.2,
      q.contentType = ContentType.textHtml ∧ q.type = NodeType.internal
    rw [hmQ]
    intro q hq
    rcases List.mem_append.mp hq with hq | hq
    · exact h.queueHtml q (hsubq q hq)
    · have hf := List.of_mem_filter hq
      simp only [isFrontier, Bool.and_eq_true, beq_iff_eq] at hf
      exact ⟨hf.2, hf.1⟩
  · rfl
  · show s.stats.scannedPages + 1 = scannedCount (updateNodeState
      (mergeChildren s.visited (updateNodeState s.nodes _) rest children).2.1 _)
    rw [hmN]
    unfold scannedCount
    rw [countP_updateNodeState_succ (fun n => n.scanned)
        { current with status := "scanning" }
        { current with status := "200", scanned := true }
        rfl hcurS rfl hu1memM hMnodupId,
      List.countP_append,
      countP_updateNodeState_congr (fun n => n.scanned) current
        { current with status := "scanning" } rfl rfl hcurN hidsA]
    have hz : (admitted s.visited children).countP (fun n => n.scanned) = 0 :=
      List.countP_eq_zero.mpr fun c hc => by simp [(hadm c hc).2.2.2]
    rw [hz, h.statsScanned]
    rfl
  · show max s.stats.depthReached current.depth = maxScannedDepth (updateNodeState
      (mergeChildren s.visited (updateNodeState s.nodes _) rest children).2.1 _)
    rw [hmN,
      maxScannedDepth_updateNodeState_scan { current with status := "scanning" }
        { current with status := "200", scanned := true }
        rfl hcurS rfl hu1memM hMnodupId,
      maxScannedDepth_append_unscanned (fun c hc => (hadm c hc).2.2.2),
      maxScannedDepth_updateNodeState_congr current
        { current with status := "scanning" } rfl hcurS hcurS hcurN hidsA]
    show max s.stats.depthReached current.depth
      = max current.depth (maxScannedDepth s.nodes)
    rw [h.statsDepth, Nat.max_comm]
  · exact List.Sublist.append h.expandedSub (List.Sublist.refl _)
  · show List.Pairwise (· ≤ ·) (((mergeChildren s.visited
      (updateNodeState s.nodes _) rest children).2.2).map LinkNode.depth)
    rw [hmQ, List.map_append]
    refine List.pairwise_append.mpr ⟨(List.pairwise_cons.mp hmonoQ).2, ?_, ?_⟩
    · refine List.pairwise_of_forall_mem_list ?_
      intro a ha b hb
      rcases List.mem_map.mp ha with ⟨c, hc, rfl⟩
      rcases List.mem_map.mp hb with ⟨c2, hc2, rfl⟩
      rw [(hadm c (List.mem_filter.mp hc).1).2.1,
        (hadm c2 (List.mem_filter.mp hc2).1).2.1]
    · intro a ha b hb
      rcases List.mem_map.mp ha with ⟨q, hq, rfl⟩
      rcases List.mem_map.mp hb with ⟨c, hc, rfl⟩
      rw [(hadm c (List.mem_filter.mp hc).1).2.1]
      exact le_trans (h.queueUB q (hsubq q hq)) (Nat.succ_le_succ hLB)
  · intro q hq
    rw [hlastS]
    have hq2 : q ∈ rest ++ (admitted s.visited children).filter isFrontier :=
      hmQ ▸ (show q ∈ (mergeChildren s.visited
        (updateNodeState s.nodes { current with status := "scanning" })
        rest children).2.2 from hq)
    rcases List.mem_append.mp hq2 with hq2 | hq2
    · exact hhead q.depth (List.mem_map.mpr ⟨q, hq2, rfl⟩)
    · rw [(hadm q (List.mem_filter.mp hq2).1).2.1]
      exact Nat.le_succ _
  · intro q hq
    rw [hlastS]
    have hq2 : q ∈ rest ++ (admitted s.visited children).filter isFrontier :=
      hmQ ▸ (show q ∈ (mergeChildren s.visited
        (updateNodeState s.nodes { current with status := "scanning" })
        rest children).2.2 from hq)
    rcases List.mem_append.mp hq2 with hq2 | hq2
    · exact le_trans (h.queueUB q (hsubq q hq2)) (Nat.succ_le_succ hLB)
    · rw [(hadm q (List.mem_filter.mp hq2).1).2.1]
  · intro x hx
    rw [hlastS]
    rcases List.mem_append.mp
      (show x ∈ s.dequeuedLog ++ [current] from hx) with hx2 | hx2
    · exact le_trans (h.logLast x hx2) hLB
    · rcases List.mem_singleton.mp hx2 with rfl
      exact le_refl _

theorem inv_step {cfg : CrawlConfig} {f : ExpandFn} {s : EngineState}
    (hf : GoodExpand f) (h : Inv s) : Inv (step cfg f s) := by
  unfold step
  split
  · exact inv_finishCrawl h
  · split
    · exact h
    · rename_i current rest heq
      split
      · exact inv_dequeuedState h heq
      · split
        · rename_i children usedKeyIndex hfe
          exact inv_successStep h heq usedKeyIndex
            (fun c hc => hf _ _ _ _ _ hfe c hc)
        · rename_i e hfe
          exact inv_errorStep h heq e

theorem reach_inv {cfg : CrawlConfig} {f : ExpandFn} {s : EngineState}
    (hf : GoodExpand f) (hr : Reach cfg f s) : Inv s := by
  induction hr with
  | start apiKeys keyIdx0 startTime => exact inv_startCrawl cfg apiKeys keyIdx0 startTime
  | step _ _ ih => exact inv_step hf ih
  | stop _ ih => exact inv_stopCrawl ih

theorem step_nodes_le {cfg : CrawlConfig} {f : ExpandFn} {s : EngineState}
    {K : Nat} (hb : BoundedExpand f K) :
    (step cfg f s).nodes.length = s.nodes.length ∨
    (s.nodes.length < cfg.maxPages ∧
      (step cfg f s).nodes.length ≤ s.nodes.length + K) := by
  unfold step
  split
  · left; rfl
  · rename_i hguard
    have hlt : s.nodes.length < cfg.maxPages := by
      by_contra hcon
      push_neg at hcon
      apply hguard
      simp [hcon]
    split
    · left; rfl
    · rename_i current rest heq
      split
      · left; rfl
      · split
        · rename_i children usedKeyIndex hfe
          right
          refine ⟨hlt, ?_⟩
          show (updateNodeState (mergeChildren s.visited
            (updateNodeState s.nodes _) rest children).2.1 _).length
            ≤ s.nodes.length + K
          rw [mergeChildren_eq]
          show (updateNodeState (updateNodeState s.nodes _
            ++ admitted s.visited children) _).length ≤ s.nodes.length + K
          rw [length_updateNodeState, List.length_append, length_updateNodeState]
          have h1 := admitted_length_le s.visited children
          have h2 := hb _ _ _ _ _ hfe
          omega
        · rename_i e hfe
          left
          show (updateNodeState (updateNodeState s.nodes _) _).length
            = s.nodes.length
          rw [length_updateNodeState, length_updateNodeState]

theorem step_budget_stop {cfg : CrawlConfig} {f : ExpandFn} {s : EngineState}
    (hle : cfg.maxPages ≤ s.nodes.length) : (step cfg f s).nodes = s.nodes := by
  unfold step
  rw [if_pos]
  · rfl
  · simp [hle]

theorem reach_nodes_bound {cfg : CrawlConfig} {f : ExpandFn} {s : EngineState}
    {K : Nat} (hb : BoundedExpand f K) (hK : 1 ≤ K) (hmp : 1 ≤ cfg.maxPages)
    (hr : Reach cfg f s) : s.nodes.length ≤ cfg.maxPages - 1 + K := by
  induction hr with
  | start apiKeys keyIdx0 startTime =>
    have h1 : (startCrawl cfg apiKeys keyIdx0 startTime).nodes.length = 1 := rfl
    omega
  | step _ _ ih =>
    rcases step_nodes_le hb with heq2 | ⟨hlt, hle⟩
    · rw [heq2]; exact ih
    · omega
  | stop _ ih => exact ih

theorem mem_mapIdx_ex {α β : Type} {rls : List α} {f : Nat → α → β} {x : β}
    (hx : x ∈ rls.mapIdx f) : ∃ j l, x = f j l := by
  rw [List.mapIdx_eq_enum_map] at hx
  rcases List.mem_map.mp hx with ⟨⟨j, l⟩, _, rfl⟩
  exact ⟨j, l, rfl⟩

theorem mapRawLink_props (currentUrl : String) (d : Nat) (sizeF rtF : Nat → Nat)
    (j : Nat) (l : RawLink) :
    (mapRawLink currentUrl d sizeF rtF j l).id = (mapRawLink currentUrl d sizeF rtF j l).url ∧
    (mapRawLink currentUrl d sizeF rtF j l).depth = d + 1 ∧
    (mapRawLink currentUrl d sizeF rtF j l).contentType
      = guessContentType (mapRawLink currentUrl d sizeF rtF j l).url ∧
    (mapRawLink currentUrl d sizeF rtF j l).scanned = false :=
  ⟨rfl, rfl, rfl, rfl⟩

theorem attemptResult_ret_props {oracle : Nat → Nat → CallResult}
    {sizeF rtF : Nat → Nat} {url : String} {d k a : Nat}
    {links : List LinkNode} {idx : Nat}
    (h : attemptResult oracle sizeF rtF url d k a = .ret links idx) :
    ∀ c ∈ links, ChildProps d c := by
  unfold attemptResult at h
  split at h
  · cases h
  · cases h; intro c hc; cases hc
  · cases h; intro c hc; cases hc
  · cases h
  · cases h
    intro c hc
    rcases mem_mapIdx_ex hc with ⟨j, l, rfl⟩
    exact mapRawLink_props url d sizeF rtF j l

theorem tryKey_success_props {oracle : Nat → Nat → CallResult}
    {sizeF rtF : Nat → Nat} {url : String} {d k : Nat} :
    ∀ {fuel a : Nat} {le le2 : Option ErrInfo} {links : List LinkNode}
      {idx : Nat} {evs : List Ev},
    tryKey oracle sizeF rtF url d k fuel a le = (.success links idx, le2, evs) →
    ∀ c ∈ links, ChildProps d c := by
  intro fuel
  induction fuel with
  | zero =>
    intro a le le2 links idx evs h
    simp [tryKey] at h
  | succ fuel ih =>
    intro a le le2 links idx evs h
    unfold tryKey at h
    split at h
    · rename_i links2 idx2 hatt
      simp only [Prod.mk.injEq, InnerOut.success.injEq] at h
      rcases h with ⟨⟨rfl, rfl⟩, _, _⟩
      exact attemptResult_ret_props hatt
    · rename_i e hatt
      split at h
      · split at h
        · rcases htr : tryKey oracle sizeF rtF url d k fuel (a + 1) (some e)
            with ⟨o, le3, evs3⟩
          rw [htr] at h
          simp only [Prod.mk.injEq] at h
          rcases h with ⟨rfl, _, _⟩
          exact ih htr
        · simp at h
      · split at h
        · simp at h
        · rcases htr : tryKey oracle sizeF rtF url d k fuel (a + 1) (some e)
            with ⟨o, le3, evs3⟩
          rw [htr] at h
          simp only [Prod.mk.injEq] at h
          rcases h with ⟨rfl, _, _⟩
          exact ih htr

theorem keyLoop_ok_props {oracle : Nat → Nat → CallResult}
    {sizeF rtF : Nat → Nat} {url : String} {d len : Nat} :
    ∀ {fuel k : Nat} {le : Option ErrInfo} {links : List LinkNode}
      {idx : Nat} {evs : List Ev},
    keyLoop oracle sizeF rtF url d len fuel k le = (.ok (links, idx), evs) →
    ∀ c ∈ links, ChildProps d c := by
  intro fuel
  induction fuel with
  | zero =>
    intro k le links idx evs h
    unfold keyLoop at h
    split at h
    · simp at h
    · simp only [Prod.mk.injEq, Except.ok.injEq] at h
      rcases h with ⟨⟨rfl, rfl⟩, _⟩
      intro c hc
      cases hc
  | succ fuel ih =>
    intro k le links idx evs h
    unfold keyLoop at h
    split at h
    · rename_i links2 idx2 w evs2 htr
      simp only [Prod.mk.injEq, Except.ok.injEq] at h
      rcases h with ⟨⟨rfl, rfl⟩, _⟩
      exact tryKey_success_props htr
    · simp at h
    · rename_i le4 evs2 htr
      rcases hr : keyLoop oracle sizeF rtF url d len fuel (k + 1) le4
        with ⟨r1, r2⟩
      rw [hr] at h
      simp only [Prod.mk.injEq] at h
      rcases h with ⟨rfl, _⟩
      exact ih hr

theorem fetchPageLinks_good (oracle : Nat → Nat → CallResult)
    (sizeF rtF : Nat → Nat) (apiKeys : List String) (rootUrl : String) :
    GoodExpand (fun url d k =>
      (fetchPageLinks oracle sizeF rtF apiKeys k url rootUrl d).1) := by
  intro url d k children i h
  simp only at h
  unfold fetchPageLinks at h
  split at h
  · cases h
  · split at h
    · simp only [Except.ok.injEq, Prod.mk.injEq] at h
      rcases h with ⟨rfl, rfl⟩
      intro c hc
      cases hc
    · rcases hr : keyLoop oracle sizeF rtF url d apiKeys.length
        (apiKeys.length - k) k none with ⟨r1, r2⟩
      rw [hr] at h
      simp only at h
      rw [h] at hr
      exact fun c hc => keyLoop_ok_props hr c hc

theorem tryKey_quota {oracle : Nat → Nat → CallResult} {sizeF rtF : Nat → Nat}
    {url : String} {d k : Nat} {e0 e1 e2 : ErrInfo}
    (h0 : oracle k 0 = .err e0) (hq0 : isQuotaError e0 = true)
    (h1 : oracle k 1 = .err e1) (hq1 : isQuotaError e1 = true)
    (h2 : oracle k 2 = .err e2) (hq2 : isQuotaError e2 = true)
    (le : Option ErrInfo) :
    tryKey oracle sizeF rtF url d k 3 0 le
      = (.nextKey, some e2, quotaKeyTrace k) := by
  have s1 : tryKey oracle sizeF rtF url d k 1 2 (some e1)
      = (.nextKey, some e2, [.call k 2]) := by
    show tryKey oracle sizeF rtF url d k (0 + 1) 2 (some e1) = _
    rw [tryKey]
    simp [attemptResult, h2, hq2]
  have s2 : tryKey oracle sizeF rtF url d k 2 1 (some e0)
      = (.nextKey, some e2, [.call k 1, .wait 10, .call k 2]) := by
    show tryKey oracle sizeF rtF url d k (1 + 1) 1 (some e0) = _
    rw [tryKey]
    simp [attemptResult, h1, hq1, s1]
  show tryKey oracle sizeF rtF url d k (2 + 1) 0 le = _
  rw [tryKey]
  simp [attemptResult, h0, hq0, s2, quotaKeyTrace]

theorem tryKey_nonquota {oracle : Nat → Nat → CallResult} {sizeF rtF : Nat → Nat}
    {url : String} {d k : Nat} {e0 e1 e2 : ErrInfo}
    (h0 : oracle k 0 = .err e0) (hq0 : isQuotaError e0 = false)
    (h1 : oracle k 1 = .err e1) (hq1 : isQuotaError e1 = false)
    (h2 : oracle k 2 = .err e2) (hq2 : isQuotaError e2 = false)
    (le : Option ErrInfo) :
    tryKey oracle sizeF rtF url d k 3 0 le
      = (.fatal e2, some e2,
         [.call k 0, .wait 2, .call k 1, .wait 4, .call k 2]) := by
  have s1 : tryKey oracle sizeF rtF url d k 1 2 (some e1)
      = (.fatal e2, some e2, [.call k 2]) := by
    show tryKey oracle sizeF rtF url d k (0 + 1) 2 (some e1) = _
    rw [tryKey]
    simp [attemptResult, h2, hq2]
  have s2 : tryKey oracle sizeF rtF url d k 2 1 (some e0)
      = (.fatal e2, some e2, [.call k 1, .wait 4, .call k 2]) := by
    show tryKey oracle sizeF rtF url d k (1 + 1) 1 (some e0) = _
    rw [tryKey]
    simp [attemptResult, h1, hq1, s1]
  show tryKey oracle sizeF rtF url d k (2 + 1) 0 le = _
  rw [tryKey]
  simp [attemptResult, h0, hq0, s2]

theorem tryKey_soft {oracle : Nat → Nat → CallResult} {sizeF rtF : Nat → Nat}
    {url : String} {d k : Nat}
    (h : oracle k 0 = .ok none ∨ oracle k 0 = .ok (some .unparseable))
    (le : Option ErrInfo) :
    tryKey oracle sizeF rtF url d k 3 0 le
      = (.success [] k, le, [.call k 0]) := by
  show tryKey oracle sizeF rtF url d k (2 + 1) 0 le = _
  rw [tryKey]
  rcases h with h | h <;> simp [attemptResult, h]

theorem keyLoop_quota {oracle : Nat → Nat → CallResult} {sizeF rtF : Nat → Nat}
    {url : String} {d len : Nat}
    (hq : ∀ k a, ∃ e, oracle k a = .err e ∧ isQuotaError e = true) :
    ∀ (fuel : Nat) (k : Nat) (le : Option ErrInfo), k + fuel = len → 0 < fuel →
    ∀ e, oracle (len - 1) 2 = .err e →
    keyLoop oracle sizeF rtF url d len fuel k le = (.error e, quotaTraceFrom k fuel) := by
  intro fuel
  induction fuel with
  | zero => intro k le _ hpos; omega
  | succ n ih =>
    intro k le hlen _ e he
    obtain ⟨e0, h0, hq0⟩ := hq k 0
    obtain ⟨e1, h1, hq1⟩ := hq k 1
    obtain ⟨e2, h2, hq2⟩ := hq k 2
    unfold keyLoop
    rw [tryKey_quota h0 hq0 h1 hq1 h2 hq2 le]
    show ((keyLoop oracle sizeF rtF url d len n (k + 1) (some e2)).1,
      quotaKeyTrace k ++ (keyLoop oracle sizeF rtF url d len n (k + 1) (some e2)).2)
      = (.error e, quotaTraceFrom k (n + 1))
    cases n with
    | zero =>
      have hk : k = len - 1 := by omega
      have hrec : keyLoop oracle sizeF rtF url d len 0 (k + 1) (some e2)
          = (.error e2, []) := by
        unfold keyLoop
        rfl
      have he2 : e2 = e := by
        rw [hk] at h2
        rw [h2] at he
        exact (CallResult.err.injEq _ _).mp he
      subst he2
      simp [hrec, quotaTraceFrom]
    | succ m =>
      rw [ih (k + 1) (some e2) (by omega) (by omega) e he]
      simp [quotaTraceFrom]

theorem fEmptyOk_good : GoodExpand fEmptyOk := by
  intro url d k children i h c hc
  simp only [fEmptyOk, Except.ok.injEq, Prod.mk.injEq] at h
  rw [← h.1] at hc
  cases hc

theorem fEmptyOk_bounded : BoundedExpand fEmptyOk 1 := by
  intro url d k children i h
  simp only [fEmptyOk, Except.ok.injEq, Prod.mk.injEq] at h
  rw [← h.1]
  simp

/-! Claim theorems. -/

/-- C1 (counterexample): with page budget 2 and an oracle returning two
fresh children, the step that expands the seed leaves the Node Set at 3
entries — strictly above maxPages, refuting the claim that the Node Set
size never exceeds the configured page budget after a merging step. -/
theorem c1_counterexample :
    cfgEx2.maxPages = 2 ∧
    (step cfgEx2 fTwoEx (startCrawl cfgEx2 exKeys 0 0)).nodes.length = 3 ∧
    2 < 3 :=
  ⟨rfl, by decide, by decide⟩

/-- C1 (amended): the budget check happens before, not after, a merge, so
along any run driven by an expansion callback returning at most K ≥ 1
children, the Node Set size stays at most maxPages - 1 + K (it can
overshoot maxPages by up to K - 1 children), and once the size has reached
maxPages the next step performs no expansion and leaves the Node Set
unchanged. -/
theorem c1_budget_overshoot_bounded {cfg : CrawlConfig} {f : ExpandFn}
    {s : EngineState} {K : Nat} (hb : BoundedExpand f K) (hK : 1 ≤ K)
    (hmp : 1 ≤ cfg.maxPages) (hr : Reach cfg f s) :
    s.nodes.length ≤ cfg.maxPages - 1 + K ∧
    (cfg.maxPages ≤ s.nodes.length → (step cfg f s).nodes = s.nodes) :=
  ⟨reach_nodes_bound hb hK hmp hr, fun hle => step_budget_stop hle⟩

/-- C1 (witness): the amended bound instantiated at the freshly started
crawl with the childless expansion callback and budget 10. -/
theorem c1_witness :
    (startCrawl cfgEx10 exKeys 0 0).nodes.length ≤ cfgEx10.maxPages - 1 + 1 ∧
    (cfgEx10.maxPages ≤ (startCrawl cfgEx10 exKeys 0 0).nodes.length →
      (step cfgEx10 fEmptyOk (startCrawl cfgEx10 exKeys 0 0)).nodes
        = (startCrawl cfgEx10 exKeys 0 0).nodes) :=
  c1_budget_overshoot_bounded fEmptyOk_bounded (by decide) (by decide)
    (Reach.start exKeys 0 0)

/-- C2 (counterexample): stopping a freshly started crawl and letting the
already scheduled step run produces final status COMPLETED, requests the
post-crawl report, and halts — refuting the claim that a stopped run ends
as aborted with no completion status and no report. -/
theorem c2_counterexample :
    (step cfgEx2 fTwoEx (stopCrawl (startCrawl cfgEx2 exKeys 0 0))).status
      = CrawlStatus.COMPLETED ∧
    (step cfgEx2 fTwoEx (stopCrawl (startCrawl cfgEx2 exKeys 0 0))).reportRequested
      = true ∧
    (step cfgEx2 fTwoEx (stopCrawl (startCrawl cfgEx2 exKeys 0 0))).halted = true :=
  ⟨rfl, rfl, rfl⟩

/-- C2 (amended): after stop clears the run flag, the one already
scheduled step invocation performs no dequeue or expansion (nodes, queue
and both ghost logs are unchanged) and finalises through finishCrawl: the
run flag stays cleared, no further step is scheduled, but the final status
is COMPLETED — the CrawlStatus enum has no aborted member — and the
post-crawl report is requested whenever the active credential is a
non-empty string. -/
theorem c2_stop_finalizes_as_completed (cfg : CrawlConfig) (f : ExpandFn)
    (s : EngineState) :
    (step cfg f (stopCrawl s)).nodes = s.nodes ∧
    (step cfg f (stopCrawl s)).queue = s.queue ∧
    (step cfg f (stopCrawl s)).dequeuedLog = s.dequeuedLog ∧
    (step cfg f (stopCrawl s)).expandedLog = s.expandedLog ∧
    (step cfg f (stopCrawl s)).isRunning = false ∧
    (step cfg f (stopCrawl s)).halted = true ∧
    (step cfg f (stopCrawl s)).status = CrawlStatus.COMPLETED ∧
    (step cfg f (stopCrawl s)).reportRequested
      = ((s.apiKeys.getD s.keyIndex "") != "") := by
  have hguard : step cfg f (stopCrawl s) = finishCrawl (stopCrawl s) := by
    unfold step
    rw [if_pos (by simp [stopCrawl])]
  rw [hguard]
  exact ⟨rfl, rfl, rfl, rfl, rfl, rfl, rfl, rfl⟩

/-- C3: on a quota signal the same credential is retried after a fixed
10-unit cooldown on the first two attempts, the next credential is tried
after the 3rd failed attempt, and when every credential reports quota
exhaustion the whole expand call raises the last quota error after exactly
3 attempts per credential — the event trace is exactly the per-credential
pattern call, wait 10, call, wait 10, call from the start index to the
last credential. -/
theorem c3_quota_cooldown_rotation_exhaustion
    (oracle : Nat → Nat → CallResult) (sizeF rtF : Nat → Nat)
    (apiKeys : List String) (i : Nat) (url rootUrl : String) (d : Nat)
    (hi : i < apiKeys.length)
    (hhtml : guessContentType url = .textHtml)
    (hq : ∀ k a, ∃ e, oracle k a = .err e ∧ isQuotaError e = true) :
    ∀ e, oracle (apiKeys.length - 1) 2 = .err e →
    fetchPageLinks oracle sizeF rtF apiKeys i url rootUrl d
      = (.error e, quotaTraceFrom i (apiKeys.length - i)) := by
  intro e he
  unfold fetchPageLinks
  have hc1 : ¬((apiKeys.length == 0) = true) := by
    simp only [beq_iff_eq]
    omega
  have hc2 : ¬((guessContentType url != ContentType.textHtml) = true) := by
    simp [hhtml]
  rw [if_neg hc1, if_neg hc2]
  exact keyLoop_quota hq (apiKeys.length - i) i none (by omega) (by omega) e he

/-- C3 (witness): the all-quota oracle on the concrete 2-credential pool
raises the quota error with the exact 3-attempts-per-credential trace. -/
theorem c3_witness :
    fetchPageLinks oracleAllQuota (fun _ => 0) (fun _ => 0) exKeys 0
      "https://example.test/" "https://example.test/" 0
      = (.error quotaErr429, quotaTraceFrom 0 2) :=
  c3_quota_cooldown_rotation_exhaustion oracleAllQuota (fun _ => 0) (fun _ => 0)
    exKeys 0 "https://example.test/" "https://example.test/" 0
    (by decide) (by rfl) (fun _ _ => ⟨quotaErr429, rfl, rfl⟩) quotaErr429 rfl

/-- C4: a non-quota error on attempts 1 and 2 causes a retry of the same
credential after a backoff of 2 x attempt time units (2 then 4), and a
non-quota error on the 3rd attempt makes expand fail fatally with that
error without rotating to any further credential — the trace contains
calls on the start credential only. -/
theorem c4_nonquota_backoff_fatal
    (oracle : Nat → Nat → CallResult) (sizeF rtF : Nat → Nat)
    (apiKeys : List String) (i : Nat) (url rootUrl : String) (d : Nat)
    {e0 e1 e2 : ErrInfo}
    (hi : i < apiKeys.length)
    (hhtml : guessContentType url = .textHtml)
    (h0 : oracle i 0 = .err e0) (hq0 : isQuotaError e0 = false)
    (h1 : oracle i 1 = .err e1) (hq1 : isQuotaError e1 = false)
    (h2 : oracle i 2 = .err e2) (hq2 : isQuotaError e2 = false) :
    fetchPageLinks oracle sizeF rtF apiKeys i url rootUrl d
      = (.error e2, [.call i 0, .wait 2, .call i 1, .wait 4, .call i 2]) := by
  unfold fetchPageLinks
  have hc1 : ¬((apiKeys.length == 0) = true) := by
    simp only [beq_iff_eq]
    omega
  have hc2 : ¬((guessContentType url != ContentType.textHtml) = true) := by
    simp [hhtml]
  rw [if_neg hc1, if_neg hc2]
  obtain ⟨m, hm⟩ : ∃ m, apiKeys.length - i = m + 1 :=
    ⟨apiKeys.length - i - 1, by omega⟩
  rw [hm]
  unfold keyLoop
  rw [tryKey_nonquota h0 hq0 h1 hq1 h2 hq2 none]

/-- C4 (witness): the server-fault oracle on the first credential fails
fatally with the 2-then-4 backoff trace even though the second credential
would succeed. -/
theorem c4_witness :
    fetchPageLinks oracleSrvThenOk (fun _ => 0) (fun _ => 0) exKeys 0
      "https://example.test/" "https://example.test/" 0
      = (.error srvErr500, [.call 0 0, .wait 2, .call 0 1, .wait 4, .call 0 2]) :=
  c4_nonquota_backoff_fatal oracleSrvThenOk (fun _ => 0) (fun _ => 0)
    exKeys 0 "https://example.test/" "https://example.test/" 0
    (by decide) (by rfl) rfl (by rfl) rfl (by rfl) rfl (by rfl)

/-- C5 (counterexample): after the seed expansion under an oracle
returning one fresh child of size 5 and one rediscovery of the seed (also
size 5), the depthReached statistic is 0 while the maximum depth over the
Node Set is 1, and totalSizeKB is 10 while the sum of sizes over the Node
Set is 5 — the statistics are not a full recomputation over the Node
Set. -/
theorem c5_counterexample :
    s5cex.stats.depthReached = 0 ∧
    (s5cex.nodes.map LinkNode.depth).foldr max 0 = 1 ∧
    s5cex.stats.totalSizeKB = 10 ∧
    (s5cex.nodes.map fun n => n.size.getD 0).sum = 5 :=
  ⟨rfl, by decide, rfl, by decide⟩

/-- C5 (amended): after every step the totalLinks statistic equals the
Node Set size and the scannedPages statistic equals the number of scanned
nodes, but the depthReached statistic equals the maximum depth over the
scanned nodes only (lagging one level behind the Node Set maximum), and
the cumulative size total is incrementally accumulated over all children
returned by expansions — including rediscovered duplicates that are never
added to the Node Set — so it can drift from the Node Set sum. -/
theorem c5_stats_partial_recomputation {cfg : CrawlConfig} {f : ExpandFn}
    {s : EngineState} (hf : GoodExpand f) (hr : Reach cfg f s) :
    s.stats.totalLinks = s.nodes.length ∧
    s.stats.scannedPages = scannedCount s.nodes ∧
    s.stats.depthReached = maxScannedDepth s.nodes := by
  have h := reach_inv hf hr
  exact ⟨h.statsTotal, h.statsScanned, h.statsDepth⟩

/-- C5 (witness): the amended statistics equations at the concrete state
reached after the seed expansion under the duplicate-child oracle. -/
theorem c5_witness :
    s5cex.stats.totalLinks = s5cex.nodes.length ∧
    s5cex.stats.scannedPages = scannedCount s5cex.nodes ∧
    s5cex.stats.depthReached = maxScannedDepth s5cex.nodes :=
  @c5_stats_partial_recomputation cfgEx10 fDupEx s5cex
    (fetchPageLinks_good oracleDupChild (fun _ => 0) (fun _ => 0) exKeys
      "https://example.test/")
    (Reach.step (Reach.start exKeys 0 0) rfl)

/-- C6: in every reachable state of a run driven by a well-formed
expansion callback no two Node Set entries share a URL, and a candidate
whose URL is already visited is dropped by the merge loop with no change
at all to the visited set, the node set or the frontier — first discovery
wins and the existing node keeps all its attributes. -/
theorem c6_no_duplicate_discovery {cfg : CrawlConfig} {f : ExpandFn}
    {s : EngineState} (hf : GoodExpand f) (hr : Reach cfg f s) :
    (s.nodes.map LinkNode.url).Nodup ∧
    (∀ (v : List String) (n q : List LinkNode) (c : LinkNode)
       (cs : List LinkNode), c.url ∈ v →
       mergeChildren v n q (c :: cs) = mergeChildren v n q cs) := by
  refine ⟨(reach_inv hf hr).nodupNodes, ?_⟩
  intro v n q c cs hmem
  simp [mergeChildren, hmem]

/-- C6 (witness): URL uniqueness at the state reached after the seed
expansion under the duplicate-child oracle, where the rediscovered seed
was dropped, together with the drop equation at a concrete instance. -/
theorem c6_witness :
    ((step cfgEx10 fDupEx (startCrawl cfgEx10 exKeys 0 0)).nodes.map
      LinkNode.url).Nodup ∧
    mergeChildren ["https://example.test/"] [] []
      ([{ id := "https://example.test/", url := "https://example.test/",
          depth := 1, status := "200", type := NodeType.internal,
          contentType := ContentType.textHtml }])
      = mergeChildren ["https://example.test/"] [] [] [] := by
  have h := @c6_no_duplicate_discovery cfgEx10 fDupEx
    (step cfgEx10 fDupEx (startCrawl cfgEx10 exKeys 0 0))
    (fetchPageLinks_good oracleDupChild (fun _ => 0) (fun _ => 0) exKeys
      "https://example.test/")
    (Reach.step (Reach.start exKeys 0 0) rfl)
  exact ⟨h.1, h.2 _ _ _ _ _ (by decide)⟩

/-- C7: along every run driven by an expansion callback that assigns each
child depth parent + 1, nodes are dequeued — and hence expanded — in
non-decreasing depth order, and the FIFO frontier always holds nodes in
non-decreasing depth order. -/
theorem c7_breadth_first_order {cfg : CrawlConfig} {f : ExpandFn}
    {s : EngineState} (hf : GoodExpand f) (hr : Reach cfg f s) :
    List.Pairwise (· ≤ ·) (s.expandedLog.map LinkNode.depth) ∧
    List.Pairwise (· ≤ ·) (s.dequeuedLog.map LinkNode.depth) ∧
    List.Pairwise (· ≤ ·) (s.queue.map LinkNode.depth) := by
  have h := reach_inv hf hr
  exact ⟨List.Pairwise.sublist (List.Sublist.map _ h.expandedSub) h.dequeuedMono,
    h.dequeuedMono, h.queueMono⟩

/-- C7 (witness): depth monotonicity of the logs and the frontier after
two steps of the concrete crawl under the two-children oracle. -/
theorem c7_witness :
    List.Pairwise (· ≤ ·)
      ((step cfgEx10 fTwoEx (step cfgEx10 fTwoEx
        (startCrawl cfgEx10 exKeys 0 0))).expandedLog.map LinkNode.depth) ∧
    List.Pairwise (· ≤ ·)
      ((step cfgEx10 fTwoEx (step cfgEx10 fTwoEx
        (startCrawl cfgEx10 exKeys 0 0))).dequeuedLog.map LinkNode.depth) ∧
    List.Pairwise (· ≤ ·)
      ((step cfgEx10 fTwoEx (step cfgEx10 fTwoEx
        (startCrawl cfgEx10 exKeys 0 0))).queue.map LinkNode.depth) :=
  @c7_breadth_first_order cfgEx10 fTwoEx
    (step cfgEx10 fTwoEx (step cfgEx10 fTwoEx (startCrawl cfgEx10 exKeys 0 0)))
    (fetchPageLinks_good oracleTwoChildren (fun _ => 0) (fun _ => 0) exKeys
      "https://example.test/")
    (Reach.step (Reach.step (Reach.start exKeys 0 0) rfl) rfl)

/-- C8: in every reachable state every frontier entry is an internal node
with HTML content category — since a well-formed expansion callback
recomputes each child category through the classifier, a child the
classifier marks non-HTML is never enqueued even when the oracle tagged it
internal — and expand invoked on a URL the classifier marks non-HTML
returns an empty child list with the incoming credential index and an
empty event trace, i.e. without contacting the oracle. -/
theorem c8_resource_leaf_rule {cfg : CrawlConfig} {f : ExpandFn}
    {s : EngineState} (hf : GoodExpand f) (hr : Reach cfg f s) :
    (∀ q ∈ s.queue,
      q.contentType = ContentType.textHtml ∧ q.type = NodeType.internal) ∧
    (∀ (oracle : Nat → Nat → CallResult) (sizeF rtF : Nat → Nat)
       (apiKeys : List String) (i : Nat) (url rootUrl : String) (d : Nat),
       apiKeys ≠ [] → guessContentType url ≠ .textHtml →
       fetchPageLinks oracle sizeF rtF apiKeys i url rootUrl d
         = (.ok ([], i), [])) := by
  refine ⟨(reach_inv hf hr).queueHtml, ?_⟩
  intro oracle sizeF rtF apiKeys i url rootUrl d hne hres
  unfold fetchPageLinks
  have hc1 : ¬((apiKeys.length == 0) = true) := by
    simp only [beq_iff_eq, List.length_eq_zero]
    exact hne
  have hc2 : ((guessContentType url != ContentType.textHtml) = true) := by
    simp [hres]
  rw [if_neg hc1, if_pos hc2]

/-- C8 (witness): the frontier rule at the freshly started crawl and the
resource short-circuit of the oracle client at a concrete PNG URL. -/
theorem c8_witness :
    (∀ q ∈ (startCrawl cfgEx10 exKeys 0 0).queue,
      q.contentType = ContentType.textHtml ∧ q.type = NodeType.internal) ∧
    fetchPageLinks oracleAllQuota (fun _ => 0) (fun _ => 0) exKeys 0
      "https://example.test/logo.png" "https://example.test/" 0
      = (.ok ([], 0), []) := by
  have h := @c8_resource_leaf_rule cfgEx10
    (fun url d k => (fetchPageLinks oracleEmptyText (fun _ => 0) (fun _ => 0)
      exKeys k url "https://example.test/" d).1)
    (startCrawl cfgEx10 exKeys 0 0)
    (fetchPageLinks_good oracleEmptyText (fun _ => 0) (fun _ => 0) exKeys
      "https://example.test/")
    (Reach.start exKeys 0 0)
  exact ⟨h.1, h.2 oracleAllQuota (fun _ => 0) (fun _ => 0) exKeys 0
    "https://example.test/logo.png" "https://example.test/" 0
    (by decide) (by decide)⟩

/-- C9 (counterexample): a payload that is valid JSON but not the expected
array — so it is not parseable as the expected list structure — does not
yield an empty child list: the map step raises a TypeError which is
handled as a transient error, retried, and after the 3rd attempt the
expand call propagates it as a fatal error. -/
theorem c9_counterexample :
    (fetchPageLinks oracleNonListPayload (fun _ => 0) (fun _ => 0) exKeys 0
      "https://example.test/" "https://example.test/" 0).1
      = .error mapTypeError :=
  rfl

/-- C9 (amended): a payload whose text is empty or fails JSON parsing is
treated as a soft failure — expand returns an empty child list with the
credential index in use at that point and no error — but a payload that
parses as JSON yet is not the expected array raises a TypeError that goes
through the transient-error retry path and is propagated fatally after 3
attempts. -/
theorem c9_soft_parse_failure
    (oracle : Nat → Nat → CallResult) (sizeF rtF : Nat → Nat)
    (apiKeys : List String) (i : Nat) (url rootUrl : String) (d : Nat)
    (hi : i < apiKeys.length)
    (hhtml : guessContentType url = .textHtml)
    (h : oracle i 0 = .ok none ∨ oracle i 0 = .ok (some .unparseable)) :
    fetchPageLinks oracle sizeF rtF apiKeys i url rootUrl d
      = (.ok ([], i), [.call i 0]) := by
  unfold fetchPageLinks
  have hc1 : ¬((apiKeys.length == 0) = true) := by
    simp only [beq_iff_eq]
    omega
  have hc2 : ¬((guessContentType url != ContentType.textHtml) = true) := by
    simp [hhtml]
  rw [if_neg hc1, if_neg hc2]
  obtain ⟨m, hm⟩ : ∃ m, apiKeys.length - i = m + 1 :=
    ⟨apiKeys.length - i - 1, by omega⟩
  rw [hm]
  unfold keyLoop
  rw [tryKey_soft h none]

/-- C9 (witness): the empty-text oracle yields an empty child list with
the starting credential after a single call. -/
theorem c9_witness :
    fetchPageLinks oracleEmptyText (fun _ => 0) (fun _ => 0) exKeys 0
      "https://example.test/" "https://example.test/" 0
      = (.ok ([], 0), [.call 0 0]) :=
  c9_soft_parse_failure oracleEmptyText (fun _ => 0) (fun _ => 0)
    exKeys 0 "https://example.test/" "https://example.test/" 0
    (by decide) (by rfl) (Or.inl rfl)

/-- C10 (counterexample): with a 2-credential pool, a start index of 5 and
a page URL the classifier marks as a non-HTML resource, expand returns
indexUsed 5 — the resource short-circuit echoes the out-of-range start
index — not the last credential index 1, refuting the claim for non-HTML
page URLs. -/
theorem c10_counterexample :
    fetchPageLinks oracleAllQuota (fun _ => 0) (fun _ => 0) exKeys 5
      "https://example.test/img.png" "https://example.test/" 0
      = (.ok ([], 5), []) ∧
    exKeys.length - 1 = 1 ∧ (5 : Nat) ≠ 1 :=
  ⟨rfl, rfl, by decide⟩

/-- C10 (amended): for a non-empty credential pool, a start index at or
past the end of the pool and a page URL whose content category is HTML,
the rotation loop body never runs and expand returns successfully with an
empty child list, indexUsed equal to the last credential index, and no
oracle contact; for non-HTML page URLs the resource short-circuit instead
returns indexUsed equal to the start index unchanged. -/
theorem c10_start_index_out_of_range
    (oracle : Nat → Nat → CallResult) (sizeF rtF : Nat → Nat)
    (apiKeys : List String) (i : Nat) (url rootUrl : String) (d : Nat)
    (hne : apiKeys ≠ []) (hi : apiKeys.length ≤ i)
    (hhtml : guessContentType url = .textHtml) :
    fetchPageLinks oracle sizeF rtF apiKeys i url rootUrl d
      = (.ok ([], apiKeys.length - 1), []) := by
  unfold fetchPageLinks
  have hc1 : ¬((apiKeys.length == 0) = true) := by
    simp only [beq_iff_eq, List.length_eq_zero]
    exact hne
  have hc2 : ¬((guessContentType url != ContentType.textHtml) = true) := by
    simp [hhtml]
  rw [if_neg hc1, if_neg hc2]
  have hz : apiKeys.length - i = 0 := by omega
  rw [hz]
  unfold keyLoop
  rfl

/-- C10 (witness): the out-of-range start index 5 on the concrete
2-credential pool and an HTML URL returns the empty list with index 1. -/
theorem c10_witness :
    fetchPageLinks oracleAllQuota (fun _ => 0) (fun _ => 0) exKeys 5
      "https://example.test/" "https://example.test/" 0
      = (.ok ([], 1), []) :=
  c10_start_index_out_of_range oracleAllQuota (fun _ => 0) (fun _ => 0)
    exKeys 5 "https://example.test/" "https://example.test/" 0
    (by decide) (by decide) (by rfl)

end DeepLink
